import Mathlib

/-! komand-plugin-sdk-go2: the specification compiler

A shallow embedding of `src/main.go`: the specification model (`PluginSpec`,
`ParamData`, `PluginHandlerData`, `TypeData`, `HTTP`), the post-processing pass
(`updateParams`, `postProcessSpec`), the template-driven emission
(`runTemplate`, the `generate...` functions, `generatePlugin`) and `main`.

Conventions of the embedding.

* A Go `map[string]V` is an association list `GoMap V`; the order of the list
  is the order in which a `range` loop over the map visits its entries (Go
  leaves that order unspecified, so properties that must hold for a map are
  stated for every order of the list). The keys of a map are distinct; no
  theorem below needs that of its lists.
* A Go `error` is `Option Error`: `none` is `nil`.
* A function that mutates its argument through a pointer or a map returns the
  mutated value together with its `error`, so that the state left behind by a
  failing call is part of the result.
* The file system is an explicit state, `FS`, passed through every function
  that touches it.
* Library code (`os`, `path`, `strings`, `encoding/json`, `text/template`) is
  modelled by the definitions and parameters of the first sections.
-/

namespace Komand

/-- The message of a Go `error` value. -/
abbrev Error := String

/-- A Go `map[string]V`, as the sequence of its entries in traversal order. -/
abbrev GoMap (V : Type) := List (String × V)

/-! ## `strings` -/

/-- The index of the first occurrence of `sub` in `s` counted from `i`, if any. -/
def indexFrom (sub : List Char) : List Char → Nat → Option Nat
  | [], i => if sub = [] then some i else none
  | c :: cs, i => if sub <+: (c :: cs) then some i else indexFrom sub cs (i + 1)

/-- Go `strings.Index(s, substr)`: the index of the first instance of `substr`
in `s`, or `-1` if `substr` is not present in `s`. -/
def stringsIndex (s substr : String) : Int :=
  match indexFrom substr.data s.data 0 with
  | some i => (i : Int)
  | none => -1

/-- One left-to-right pass replacing the non-overlapping instances of a
non-empty `old`: `skip` counts the characters of a matched instance that are
still to be dropped. -/
def replaceGo (old new : List Char) : Nat → List Char → List Char
  | _, [] => []
  | skip + 1, _ :: cs => replaceGo old new skip cs
  | 0, c :: cs =>
    if old <+: (c :: cs) then new ++ replaceGo old new (old.length - 1) cs
    else c :: replaceGo old new 0 cs

/-- Go `strings.Replace(s, old, new, -1)`: a copy of `s` with all
non-overlapping instances of `old` replaced by `new`. If `old` is empty, it
matches at the beginning of the string and after each character. -/
def stringsReplaceAll (s old new : String) : String :=
  if old.data = [] then
    String.mk (new.data ++ (s.data.map fun c => c :: new.data).flatten)
  else String.mk (replaceGo old.data new.data 0 s.data)

/-- Go `strings.HasSuffix(s, suffix)`. -/
def stringsHasSuffix (s suffix : String) : Bool :=
  decide (suffix.data <:+ s.data)

/-! ## `path` and `path/filepath` (Unix) -/

/-- The pieces of a character sequence between the occurrences of `sep`. -/
def splitOnChar (sep : Char) : List Char → List (List Char)
  | [] => [[]]
  | c :: cs =>
    if c = sep then [] :: splitOnChar sep cs
    else
      match splitOnChar sep cs with
      | [] => [[c]]
      | w :: ws => (c :: w) :: ws

/-- One step of `path.Clean` over the elements kept so far (innermost first):
`..` removes the element before it, is dropped at the root of a rooted path,
and is kept otherwise. -/
def cleanStep (rooted : Bool) (stack : List (List Char)) (el : List Char) :
    List (List Char) :=
  if el = [] ∨ el = ['.'] then stack
  else if el = ['.', '.'] then
    match stack with
    | [] => if rooted then [] else [el]
    | top :: below => if top = ['.', '.'] then el :: top :: below else below
  else el :: stack

/-- The elements of the cleaned path, outermost first. -/
def cleanElems (rooted : Bool) (p : List Char) : List (List Char) :=
  ((splitOnChar '/' p).foldl (cleanStep rooted) []).reverse

/-- The elements joined by single slashes. -/
def joinElems : List (List Char) → List Char
  | [] => []
  | [e] => e
  | e :: es => e ++ '/' :: joinElems es

/-- Go `path.Clean`: the shortest path name equivalent to `p` by purely lexical
processing (multiple slashes collapsed, `.` elements and inner `..` elements
eliminated, `/..` at the root replaced by `/`); the empty path becomes `.`. -/
def pathClean (p : String) : String :=
  let rooted := decide (['/'] <+: p.data)
  let body := joinElems (cleanElems rooted p.data)
  if rooted then String.mk ('/' :: body)
  else if body = [] then "." else String.mk body

/-- Go `path.Join`: empty elements at the front are ignored, the rest is joined
with slashes and cleaned; the result is empty when every element is. -/
def pathJoin (elem : List String) : String :=
  match elem.dropWhile (fun e => e = "") with
  | [] => ""
  | es => pathClean (String.mk (joinElems (es.map String.data)))

/-- Go `filepath.Dir`: all but the last element of the path, cleaned. -/
def filepathDir (p : String) : String :=
  pathClean (String.mk (p.data.reverse.dropWhile (fun c => c ≠ '/')).reverse)

/-- The path itself preceded by its ancestors, outermost first: `/a/b` gives
`/a`, `/a/b`. The root and the working directory `.` are not listed. -/
def pathChain (p : String) : List String :=
  let rooted := decide (['/'] <+: p.data)
  let elems := (splitOnChar '/' p.data).filter (fun e => e ≠ [] ∧ e ≠ ['.'])
  (elems.inits.filter (fun l => l ≠ [])).map fun l =>
    String.mk ((if rooted then ['/'] else []) ++ joinElems l)

/-! ## `os`: the file system -/

/-- What a path names: a regular file with its content, or a directory. -/
inductive Node where
  | file (content : String)
  | dir
  deriving DecidableEq, Repr

/-- A file-system state: the nodes by path. -/
structure FS where
  nodes : List (String × Node)
  deriving DecidableEq, Repr

/-- The node a path names, if any (the first entry for the path). -/
def FS.lookup (fs : FS) (p : String) : Option Node :=
  match fs.nodes.find? (fun e => e.1 = p) with
  | some e => some e.2
  | none => none

/-- The state in which `p` names `n` and every other path is as before. -/
def FS.set (fs : FS) (p : String) (n : Node) : FS :=
  ⟨(p, n) :: fs.nodes.filter (fun e => e.1 ≠ p)⟩

/-- The error kinds of the `os` calls used by the generator. -/
inductive Errno where
  | ENOENT
  | ENOTDIR
  | EISDIR
  deriving DecidableEq, Repr

/-- The text of an `os` error. -/
def Errno.message (op path : String) : Errno → Error
  | .ENOENT => op ++ " " ++ path ++ ": no such file or directory"
  | .ENOTDIR => op ++ " " ++ path ++ ": not a directory"
  | .EISDIR => op ++ " " ++ path ++ ": is a directory"

/-- Whether the path names a regular file. -/
def FS.isFile (fs : FS) (p : String) : Bool :=
  match fs.lookup p with
  | some (.file _) => true
  | _ => false

/-- Go `os.Stat`: the node at the path; for a path that names nothing the error
is `ENOTDIR` when one of its ancestors is a regular file and `ENOENT`
otherwise. -/
def osStat (fs : FS) (p : String) : Except Errno Node :=
  match fs.lookup p with
  | some n => .ok n
  | none => if (pathChain p).any fs.isFile then .error .ENOTDIR else .error .ENOENT

/-- Go `os.IsNotExist(err)` on the result of a call. -/
def osIsNotExist {α : Type} : Except Errno α → Bool
  | .error .ENOENT => true
  | _ => false

/-- The directories of a chain created one after the other; a regular file in
the way is the error `ENOTDIR`. -/
def mkdirChain (fs : FS) : List String → Except Errno FS
  | [] => .ok fs
  | p :: ps =>
    match fs.lookup p with
    | some (.file _) => .error .ENOTDIR
    | some .dir => mkdirChain fs ps
    | none => mkdirChain (fs.set p .dir) ps

/-- Go `os.MkdirAll`: creates the directory along with any necessary parents;
a path that is already a directory is left as it is. -/
def osMkdirAll (fs : FS) (p : String) : Except Error FS :=
  match mkdirChain fs (pathChain p) with
  | .ok fs1 => .ok fs1
  | .error e => .error (e.message "mkdir" p)

/-- Whether the parent of `p` is a directory: the root and the working
directory always are. -/
def parentIsDir (fs : FS) (p : String) : Except Errno Unit :=
  let d := filepathDir p
  if d = "/" ∨ d = "." then .ok ()
  else
    match fs.lookup d with
    | some .dir => .ok ()
    | some (.file _) => .error .ENOTDIR
    | none => .error .ENOENT

/-- Go `os.Create`: creates or truncates the named file. The parent must be a
directory and the path must not name a directory. -/
def osCreate (fs : FS) (p : String) : Except Error FS :=
  match parentIsDir fs p with
  | .error e => .error (e.message "open" p)
  | .ok () =>
    match fs.lookup p with
    | some .dir => .error (Errno.EISDIR.message "open" p)
    | _ => .ok (fs.set p (.file ""))

/-- Writing `out` at the end of the open file `p`. -/
def fileWrite (fs : FS) (p out : String) : FS :=
  match fs.lookup p with
  | some (.file c) => fs.set p (.file (c ++ out))
  | _ => fs

/-- Go `ioutil.WriteFile`: creates or truncates the file and writes the data. -/
def ioutilWriteFile (fs : FS) (p data : String) : Except Error FS :=
  match osCreate fs p with
  | .error e => .error e
  | .ok fs1 => .ok (fileWrite fs1 p data)

/-- Go `ioutil.ReadFile`: the content of a regular file. -/
def ioutilReadFile (fs : FS) (p : String) : Except Error String :=
  match fs.lookup p with
  | some (.file c) => .ok c
  | some .dir => .error (Errno.EISDIR.message "read" p)
  | none => .error (Errno.ENOENT.message "open" p)

/-! ## `encoding/json` over the values the YAML parser produces -/

/-- A Go `interface{}` as `yaml.Unmarshal` fills it: `nil`, a `bool`, an `int`, a
`float64`, a `string`, a `[]interface{}` or a `map[interface{}]interface{}`. A
`float64` is carried by the decimal text `encoding/json` gives it, `none` for
NaN and the infinities, which have no JSON text. -/
inductive Value where
  | null
  | bool (b : Bool)
  | int (n : Int)
  | float (text : Option String)
  | str (s : String)
  | seq (items : List Value)
  | map (entries : List (Value × Value))

/-- A hexadecimal digit, lower case. -/
def hexDigit (n : Nat) : Char :=
  "0123456789abcdef".data.getD n '0'

/-- The JSON form of one character of a string, as `encoding/json` writes it
with HTML escaping on (the setting of `json.Marshal`): the quote and the
backslash get a backslash, newline, carriage return and tab their short
escapes, the other control characters and the characters `<`, `>`, `&`, U+2028
and U+2029 the six-character form. -/
def jsonEscapeChar (c : Char) : List Char :=
  if c = '"' ∨ c = '\\' then ['\\', c]
  else if c = '\n' then ['\\', 'n']
  else if c = '\r' then ['\\', 'r']
  else if c = '\t' then ['\\', 't']
  else if c.toNat < 32 ∨ c = '<' ∨ c = '>' ∨ c = '&' then
    ['\\', 'u', '0', '0', hexDigit (c.toNat / 16), hexDigit (c.toNat % 16)]
  else if c.toNat = 8232 then ['\\', 'u', '2', '0', '2', '8']
  else if c.toNat = 8233 then ['\\', 'u', '2', '0', '2', '9']
  else [c]

/-- The JSON text of a string. -/
def jsonString (s : String) : String :=
  String.mk ('"' :: (s.data.map jsonEscapeChar).flatten ++ ['"'])

/-- The texts joined by commas. -/
def joinComma : List String → String
  | [] => ""
  | [t] => t
  | t :: ts => t ++ "," ++ joinComma ts

mutual
/-- Go `json.Marshal` on a value decoded from YAML: the JSON text, or the error
for a value that has none (a map keyed by `interface{}`, a NaN or infinite
float), also when such a value is nested in a sequence. -/
def jsonMarshal : Value → Except Error String
  | .null => .ok "null"
  | .bool b => .ok (if b then "true" else "false")
  | .int n => .ok (toString n)
  | .float (some t) => .ok t
  | .float none => .error "json: unsupported value: NaN"
  | .str s => .ok (jsonString s)
  | .seq items =>
    match jsonMarshalAll items with
    | .ok texts => .ok ("[" ++ joinComma texts ++ "]")
    | .error e => .error e
  | .map _ => .error "json: unsupported type: map[interface \x7b\x7d]interface \x7b\x7d"
/-- The JSON texts of the items of a sequence, or the first error. -/
def jsonMarshalAll : List Value → Except Error (List String)
  | [] => .ok []
  | v :: vs =>
    match jsonMarshal v with
    | .error e => .error e
    | .ok t =>
      match jsonMarshalAll vs with
      | .error e => .error e
      | .ok ts => .ok (t :: ts)
end

/-! ## The specification model (`src/main.go`, lines 19 to 107) -/

/-- `EnumData` is used to parse and write out enums. -/
structure EnumData where
  Name : String
  LiteralValue : String
  deriving DecidableEq, Repr

/-- `ParamData`: the details that make up each input/output/trigger param. -/
structure ParamData where
  RawName : String
  Name : String
  /-- The field `Type` of the source (a reserved word here). -/
  Type_ : String
  Required : Bool
  Description : String
  Enum : List Value
  Default : Value
  Embed : Bool
  Nullable : Bool
  EnumLiteral : List EnumData

/-- `PluginHandlerData` defines the actions or triggers. -/
structure PluginHandlerData where
  RawName : String
  Name : String
  Title : String
  Description : String
  Input : GoMap ParamData
  Output : GoMap ParamData
  PackageRoot : String

/-- `TypeData` defines the custom types. -/
structure TypeData where
  RawName : String
  Name : String
  Fields : GoMap ParamData
  SortedFields : List ParamData

/-- `HTTP` defines the settings for the plugin's http server. -/
structure HTTP where
  Port : Int
  ReadTimeout : Int
  WriteTimeout : Int
  deriving DecidableEq, Repr

/-- Modelled from the spec: the `TypeMapper` type, whose declaration is not in
the source files at hand. The type resolver "depends on the spec's custom-type
registry": the mapper holds the names of the declared custom types. -/
structure TypeMapper where
  registry : List String
  deriving DecidableEq, Repr

/-- `PluginSpec`: the parsed and then enriched specification. -/
structure PluginSpec where
  PluginSpecVersion : String
  Name : String
  Title : String
  Description : String
  Version : String
  Vendor : String
  Tags : List String
  Icon : String
  Help : String
  Connection : GoMap ParamData
  RawTypes : GoMap (GoMap ParamData)
  Types : GoMap TypeData
  Triggers : GoMap PluginHandlerData
  Actions : GoMap PluginHandlerData
  PackageRoot : String
  HTTP : HTTP
  TypeMapper : Option TypeMapper
  SpecLocation : String
  ConnectionDataKey : String

/-- Modelled from the spec: `NewTypeMapper`, whose source is not at hand; it
builds the mapper of a specification from its custom-type registry. -/
def NewTypeMapper (s : PluginSpec) : TypeMapper :=
  ⟨s.RawTypes.map Prod.fst⟩

/-- The functions of the repository that `src/main.go` calls and whose source
is not at hand, taken as parameters: the naming normalizer `UpperCamelCase`,
the type resolver `TypeMapper.SpecTypeToGoType` (one string in, one string out
at every call site) and the field ordering `sortParamData`. -/
structure Helpers where
  UpperCamelCase : String → String
  SpecTypeToGoType : TypeMapper → String → String
  sortParamData : GoMap ParamData → List ParamData

/-- `ParamData.TypesInternalType`: the type as written inside the types
package, without the package name. -/
def ParamData.TypesInternalType (p : ParamData) : String :=
  if stringsIndex p.Type_ "types." > -1 then stringsReplaceAll p.Type_ "types." ""
  else p.Type_

/-! ## The post-processing pass (`src/main.go`, lines 149 to 263) -/

/-- The enum loop of `updateParams` (lines 157 to 169): each enum value is
marshalled to JSON, the text is the literal and the constant is named by the
parameter name followed by `UpperCamelCase` of the text; the first value that
does not marshal ends the loop with its error. -/
def enumLiterals (h : Helpers) (paramName : String) :
    List Value → Except Error (List EnumData)
  | [] => .ok []
  | e :: es =>
    match jsonMarshal e with
    | .error err => .error err
    | .ok b =>
      match enumLiterals h paramName es with
      | .error err => .error err
      | .ok rest => .ok (⟨paramName ++ h.UpperCamelCase b, b⟩ :: rest)

/-- The body of the loop of `updateParams` for one entry (lines 153 to 169). -/
def updateParam (h : Helpers) (t : TypeMapper) (name : String) (param : ParamData) :
    Except Error ParamData :=
  let param1 : ParamData :=
    { param with
      RawName := name
      Name := h.UpperCamelCase name
      Type_ := h.SpecTypeToGoType t param.Type_ }
  match enumLiterals h param1.Name param1.Enum with
  | .error err => .error err
  | .ok lits => .ok { param1 with EnumLiteral := lits }

/-- `updateParams` (lines 151 to 173): every entry of the map is rewritten in
place, in traversal order; on an error the entries visited before stay
rewritten and the others are as they were. -/
def updateParams (h : Helpers) (t : TypeMapper) :
    GoMap ParamData → GoMap ParamData × Option Error
  | [] => ([], none)
  | (name, param) :: rest =>
    match updateParam h t name param with
    | .error err => ((name, param) :: rest, some err)
    | .ok param1 =>
      let r := updateParams h t rest
      ((name, param1) :: r.1, r.2)

/-- The loop over `s.RawTypes` (lines 185 to 199): the rewritten `RawTypes`,
the entries put into `s.Types`, and the error that ended the loop, if any. -/
def typesLoop (h : Helpers) (t : TypeMapper) :
    GoMap (GoMap ParamData) → GoMap (GoMap ParamData) × GoMap TypeData × Option Error
  | [] => ([], [], none)
  | (name, data) :: rest =>
    let r := updateParams h t data
    match r.2 with
    | some err => ((name, r.1) :: rest, [], some err)
    | none =>
      let td : TypeData :=
        { RawName := name
          Name := h.UpperCamelCase name
          Fields := r.1
          SortedFields := h.sortParamData r.1 }
      let k := typesLoop h t rest
      ((name, r.1) :: k.1, (name, td) :: k.2.1, k.2.2)

/-- The loop over `s.Connection` (lines 203 to 214): the rewritten map and the
`ConnectionDataKey` grown from `key`. -/
def connectionLoop (h : Helpers) (t : TypeMapper) :
    GoMap ParamData → String → GoMap ParamData × String
  | [], key => ([], key)
  | (name, param) :: rest, key =>
    let param1 : ParamData :=
      { param with
        RawName := name
        Name := h.UpperCamelCase name
        Type_ := h.SpecTypeToGoType t param.Type_ }
    let key1 :=
      if param1.Type_ = "string" then
        (if key ≠ "" then key ++ " + " else key) ++ ("c." ++ param1.Name)
      else key
    let r := connectionLoop h t rest key1
    ((name, param1) :: r.1, r.2)

/-- The loop over `s.Actions` (lines 223 to 235) and the one over `s.Triggers`
(lines 237 to 249), which have the same body. A failing `updateParams` leaves
the entry with the maps it rewrote and without the new names. -/
def handlersLoop (h : Helpers) (t : TypeMapper) (packageRoot : String) :
    GoMap PluginHandlerData → GoMap PluginHandlerData × Option Error
  | [] => ([], none)
  | (name, action) :: rest =>
    let i := updateParams h t action.Input
    match i.2 with
    | some err => ((name, { action with Input := i.1 }) :: rest, some err)
    | none =>
      let o := updateParams h t action.Output
      match o.2 with
      | some err => ((name, { action with Input := i.1, Output := o.1 }) :: rest, some err)
      | none =>
        let action1 : PluginHandlerData :=
          { action with
            RawName := name
            Name := h.UpperCamelCase name
            PackageRoot := packageRoot
            Input := i.1
            Output := o.1 }
        let k := handlersLoop h t packageRoot rest
        ((name, action1) :: k.1, k.2)

/-- The defaults of the HTTP settings (lines 251 to 261). -/
def httpDefaults (c : HTTP) : HTTP :=
  let c1 := if c.Port = 0 then { c with Port := 10001 } else c
  let c2 := if c1.ReadTimeout = 0 then { c1 with ReadTimeout := 2 } else c1
  if c2.WriteTimeout = 0 then { c2 with WriteTimeout := 2 } else c2

/-- `postProcessSpec` (lines 177 to 263): the specification as the call leaves
it, and the error it returns. -/
def postProcessSpec (h : Helpers) (s : PluginSpec) : PluginSpec × Option Error :=
  let t := NewTypeMapper s
  let ty := typesLoop h t s.RawTypes
  let s1 : PluginSpec := { s with TypeMapper := some t, RawTypes := ty.1, Types := ty.2.1 }
  match ty.2.2 with
  | some err => (s1, some err)
  | none =>
    let c := connectionLoop h t s1.Connection s1.ConnectionDataKey
    let s2 : PluginSpec := { s1 with Connection := c.1, ConnectionDataKey := c.2 }
    let s3 : PluginSpec :=
      if s2.ConnectionDataKey = "" then { s2 with ConnectionDataKey := "\"\"" } else s2
    let a := handlersLoop h t s3.PackageRoot s3.Actions
    let s4 : PluginSpec := { s3 with Actions := a.1 }
    match a.2 with
    | some err => (s4, some err)
    | none =>
      let tr := handlersLoop h t s4.PackageRoot s4.Triggers
      let s5 : PluginSpec := { s4 with Triggers := tr.1 }
      match tr.2 with
      | some err => (s5, some err)
      | none => ({ s5 with HTTP := httpDefaults s5.HTTP }, none)

/-! ## Emission (`src/main.go`, lines 265 to 482) -/

/-- The data object a template is rendered against: the specification, an
action or trigger, or a custom type. -/
inductive Data where
  | spec (s : PluginSpec)
  | handler (d : PluginHandlerData)
  | typeData (d : TypeData)

/-- The template collaborators: the embedded template files (`Asset`) and the
`text/template` engine. `Execute` gives the text it wrote to the output and the
error it ended with, if any. -/
structure Engine where
  Template : Type
  Asset : String → Except Error String
  Parse : String → String → Except Error Template
  Execute : Template → Data → String × Option Error

/-- `doesFileExist` (lines 315 to 318). -/
def doesFileExist (fs : FS) (path : String) : Bool :=
  !osIsNotExist (osStat fs path)

/-- `runTemplate` (lines 320 to 348): the error returned and the file system
the call leaves. The directories are made before the template is looked up, the
output is created (and so emptied) before the template is executed, and what
`Execute` wrote stays in the file when it fails; closing the file succeeds. -/
def runTemplate (e : Engine) (templatePath outputPath : String) (data : Data)
    (skipIfExists : Bool) (fs : FS) : Option Error × FS :=
  if skipIfExists && doesFileExist fs outputPath then (none, fs)
  else
    match osMkdirAll fs (filepathDir outputPath) with
    | .error err => (some err, fs)
    | .ok fs1 =>
      match e.Asset templatePath with
      | .error err => (some err, fs1)
      | .ok b =>
        match e.Parse templatePath b with
        | .error err => (some err, fs1)
        | .ok t =>
          match osCreate fs1 outputPath with
          | .error err => (some err, fs1)
          | .ok fs2 =>
            let r := e.Execute t data
            (r.2, fileWrite fs2 outputPath r.1)

/-- One call of `runTemplate` made by the orchestrator. -/
structure Emission where
  templatePath : String
  outputPath : String
  data : Data
  skipIfExists : Bool

/-- The calls of `runTemplate` made one after the other; the first error ends
the sequence and is returned. -/
def runEmissions (e : Engine) : List Emission → FS → Option Error × FS
  | [], fs => (none, fs)
  | em :: rest, fs =>
    match runTemplate e em.templatePath em.outputPath em.data em.skipIfExists fs with
    | (some err, fs1) => (some err, fs1)
    | (none, fs1) => runEmissions e rest fs1

/-- The output path below the package directory: `path.Join` of the value of
`GOPATH`, `/src/`, the package root and the rest. -/
def outPath (gopath : String) (s : PluginSpec) (rest : List String) : String :=
  pathJoin ([gopath, "/src/", s.PackageRoot] ++ rest)

/-- The calls made by `generateActions` (lines 350 to 368). -/
def actionEmissions (gopath : String) (s : PluginSpec) : List Emission :=
  (s.Actions.map fun na =>
    [ { templatePath := "templates/actions/action_x.template"
        outputPath := outPath gopath s ["/actions/", na.1 ++ ".go"]
        data := .handler na.2
        skipIfExists := false },
      { templatePath := "templates/actions/action_x_run.template"
        outputPath := outPath gopath s ["/actions/", na.1 ++ "_run.go"]
        data := .handler na.2
        skipIfExists := true } ]).flatten

/-- The calls made by `generateConnections` (lines 370 to 385). -/
def connectionEmissions (gopath : String) (s : PluginSpec) : List Emission :=
  [ { templatePath := "templates/connection/connection.template"
      outputPath := outPath gopath s ["/connection/", "connection.go"]
      data := .spec s
      skipIfExists := false },
    { templatePath := "templates/connection/connect.template"
      outputPath := outPath gopath s ["/connection/connect.go"]
      data := .spec s
      skipIfExists := true },
    { templatePath := "templates/connection/cache.template"
      outputPath := outPath gopath s ["/connection/cache.go"]
      data := .spec s
      skipIfExists := false } ]

/-- The calls made by `generateTriggers` (lines 387 to 405). -/
def triggerEmissions (gopath : String) (s : PluginSpec) : List Emission :=
  (s.Triggers.map fun nt =>
    [ { templatePath := "templates/triggers/trigger_x.template"
        outputPath := outPath gopath s ["/triggers/", nt.1 ++ ".go"]
        data := .handler nt.2
        skipIfExists := false },
      { templatePath := "templates/triggers/trigger_x_run.template"
        outputPath := outPath gopath s ["/triggers/", nt.1 ++ "_run.go"]
        data := .handler nt.2
        skipIfExists := true } ]).flatten

/-- The call made by `generateCmd` (lines 407 to 411). -/
def cmdEmissions (gopath : String) (s : PluginSpec) : List Emission :=
  [ { templatePath := "templates/cmd/main.template"
      outputPath := outPath gopath s ["/cmd/", "main.go"]
      data := .spec s
      skipIfExists := false } ]

/-- The call made by `generateHTTPServer` (lines 413 to 417). -/
def httpServerEmissions (gopath : String) (s : PluginSpec) : List Emission :=
  [ { templatePath := "templates/server/http/server.template"
      outputPath := outPath gopath s ["/server/http/", "server.go"]
      data := .spec s
      skipIfExists := false } ]

/-- The calls made by `generateHTTPHandlers` (lines 419 to 430). -/
def httpHandlerEmissions (gopath : String) (s : PluginSpec) : List Emission :=
  s.Actions.map fun na =>
    { templatePath := "templates/server/http/handler_x.template"
      outputPath := outPath gopath s ["/server/http/", na.1 ++ ".go"]
      data := .handler na.2
      skipIfExists := false }

/-- The calls made by `generateTypes` (lines 436 to 447). -/
def typeEmissions (gopath : String) (s : PluginSpec) : List Emission :=
  s.Types.map fun nt =>
    { templatePath := "templates/types/type_x.template"
      outputPath := outPath gopath s ["/types/", nt.1 ++ ".go"]
      data := .typeData nt.2
      skipIfExists := false }

/-- The calls made by `generateBuildSupport` (lines 449 to 462). -/
def buildSupportEmissions (gopath : String) (s : PluginSpec) : List Emission :=
  [ { templatePath := "templates/Dockerfile.template"
      outputPath := outPath gopath s ["Dockerfile"]
      data := .spec s
      skipIfExists := false },
    { templatePath := "templates/Makefile.template"
      outputPath := outPath gopath s ["Makefile"]
      data := .spec s
      skipIfExists := false } ]

/-- Every call of `runTemplate` of one run of `generatePlugin`, in the order
of the run (lines 275 to 301). -/
def pluginEmissions (gopath : String) (s : PluginSpec) : List Emission :=
  actionEmissions gopath s ++ connectionEmissions gopath s ++ triggerEmissions gopath s ++
    cmdEmissions gopath s ++ httpServerEmissions gopath s ++ httpHandlerEmissions gopath s ++
    typeEmissions gopath s ++ buildSupportEmissions gopath s

/-- What the orchestrator is run with: the value of the environment variable
`GOPATH`, the template collaborators, the YAML parser (`yaml.Unmarshal`, which
fills the specification it is given) and the two toolchain steps run as
external processes after emission (`runGoImports`, `vendorPluginDeps`). -/
structure Env where
  GOPATH : String
  engine : Engine
  Unmarshal : String → PluginSpec → PluginSpec × Option Error
  runGoImports : PluginSpec → FS → Option Error × FS
  vendorPluginDeps : PluginSpec → FS → Option Error × FS

/-- Steps run one after the other, each guarded by
`if err := step(s); err != nil { return err }`. -/
def runSteps : List (FS → Option Error × FS) → FS → Option Error × FS
  | [], fs => (none, fs)
  | step :: rest, fs =>
    match step fs with
    | (some err, fs1) => (some err, fs1)
    | (none, fs1) => runSteps rest fs1

/-- `generateActions` (lines 350 to 368). -/
def generateActions (env : Env) (s : PluginSpec) (fs : FS) : Option Error × FS :=
  runEmissions env.engine (actionEmissions env.GOPATH s) fs

/-- `generateConnections` (lines 370 to 385). -/
def generateConnections (env : Env) (s : PluginSpec) (fs : FS) : Option Error × FS :=
  runEmissions env.engine (connectionEmissions env.GOPATH s) fs

/-- `generateTriggers` (lines 387 to 405). -/
def generateTriggers (env : Env) (s : PluginSpec) (fs : FS) : Option Error × FS :=
  runEmissions env.engine (triggerEmissions env.GOPATH s) fs

/-- `generateCmd` (lines 407 to 411). -/
def generateCmd (env : Env) (s : PluginSpec) (fs : FS) : Option Error × FS :=
  runEmissions env.engine (cmdEmissions env.GOPATH s) fs

/-- `generateHTTPServer` (lines 413 to 417). -/
def generateHTTPServer (env : Env) (s : PluginSpec) (fs : FS) : Option Error × FS :=
  runEmissions env.engine (httpServerEmissions env.GOPATH s) fs

/-- `generateHTTPHandlers` (lines 419 to 430). -/
def generateHTTPHandlers (env : Env) (s : PluginSpec) (fs : FS) : Option Error × FS :=
  runEmissions env.engine (httpHandlerEmissions env.GOPATH s) fs

/-- `generateTests` (lines 432 to 434). -/
def generateTests (_s : PluginSpec) (fs : FS) : Option Error × FS :=
  (none, fs)

/-- `generateTypes` (lines 436 to 447). -/
def generateTypes (env : Env) (s : PluginSpec) (fs : FS) : Option Error × FS :=
  runEmissions env.engine (typeEmissions env.GOPATH s) fs

/-- `generateBuildSupport` (lines 449 to 472). -/
def generateBuildSupport (env : Env) (s : PluginSpec) (fs : FS) : Option Error × FS :=
  match runEmissions env.engine (buildSupportEmissions env.GOPATH s) fs with
  | (some err, fs1) => (some err, fs1)
  | (none, fs1) =>
    match osMkdirAll fs1 (outPath env.GOPATH s ["/vendor/"]) with
    | .error err => (some err, fs1)
    | .ok fs2 =>
      match ioutilWriteFile fs2 (outPath env.GOPATH s ["/vendor/.gitkeep"]) "" with
      | .error err => (some err, fs2)
      | .ok fs3 => (none, fs3)

/-- `copySpec` (lines 474 to 482). -/
def copySpec (env : Env) (s : PluginSpec) (fs : FS) : Option Error × FS :=
  match ioutilReadFile fs s.SpecLocation with
  | .error err => (some err, fs)
  | .ok data =>
    match ioutilWriteFile fs (outPath env.GOPATH s ["plugin.spec.yaml"]) data with
    | .error err => (some err, fs)
    | .ok fs1 => (none, fs1)

/-- How a call that may end the process ends: `log.Fatal`, or a return with an
`error`. -/
inductive Outcome where
  | fatal (msg : String)
  | returned (err : Option Error)
  deriving DecidableEq, Repr

/-- `generatePlugin` (lines 265 to 313). -/
def generatePlugin (env : Env) (s : PluginSpec) (fs : FS) : Outcome × FS :=
  let p := pathJoin [env.GOPATH, "src", s.PackageRoot]
  match (if osIsNotExist (osStat fs p) then osMkdirAll fs p else .ok fs) with
  | .error err => (.fatal ("Error when creating plugin package path: " ++ err), fs)
  | .ok fs0 =>
    let r := runSteps
      [ generateActions env s, generateConnections env s, generateTriggers env s,
        generateCmd env s, generateHTTPServer env s, generateHTTPHandlers env s,
        generateTests s, generateTypes env s, generateBuildSupport env s, copySpec env s,
        env.runGoImports s, env.vendorPluginDeps s ] fs0
    (.returned r.1, r.2)

/-- The `PluginSpec` literal of `main` (lines 134 to 137): every field but the
two named ones has its zero value. -/
def newPluginSpec (pRoot specLoc : String) : PluginSpec :=
  { PluginSpecVersion := "", Name := "", Title := "", Description := "", Version := "",
    Vendor := "", Tags := [], Icon := "", Help := "", Connection := [], RawTypes := [],
    Types := [], Triggers := [], Actions := [], PackageRoot := pRoot,
    HTTP := ⟨0, 0, 0⟩, TypeMapper := none, SpecLocation := specLoc, ConnectionDataKey := "" }

/-- `main` (lines 114 to 147), run with the values of the flags `-spec` and
`-package`: how the process ends (`none` for a normal return, `some msg` for
`log.Fatal`) and the file system it leaves. The value `postProcessSpec`
returns is not looked at (line 142). -/
def main (env : Env) (h : Helpers) (specLoc packageRoot : String) (fs : FS) :
    Option String × FS :=
  if specLoc = "" then (some "Error, must provide path to spec including name", fs)
  else if packageRoot = "" then
    (some ("Error, must provide a package root for the resulting go package. " ++
      "Ex: github.com/<company_name>/plugins/<plugin_name>"), fs)
  else
    match ioutilReadFile fs specLoc with
    | .error err => (some ("error loading spec: " ++ err), fs)
    | .ok data =>
      let pRoot :=
        if stringsHasSuffix packageRoot "/" then String.mk packageRoot.data.dropLast
        else packageRoot
      match env.Unmarshal data (newPluginSpec pRoot specLoc) with
      | (_, some err) => (some err, fs)
      | (s, none) =>
        let s1 := (postProcessSpec h s).1
        match generatePlugin env s1 fs with
        | (.fatal msg, fs1) => (some msg, fs1)
        | (.returned (some err), fs1) => (some err, fs1)
        | (.returned none, fs1) => (none, fs1)

/-! ## The helpers, modelled from the spec, for concrete runs -/

/-- The first character in upper case. -/
def upperFirst : List Char → List Char
  | [] => []
  | c :: cs => c.toUpper :: cs

/-- The words of an identifier: the pieces between underscores and dashes. -/
def identWords : List Char → List (List Char)
  | [] => [[]]
  | c :: cs =>
    if c = '_' ∨ c = '-' then [] :: identWords cs
    else
      match identWords cs with
      | [] => [[c]]
      | w :: ws => (c :: w) :: ws

/-- Modelled from the spec: `UpperCamelCase`, whose source is not at hand.
"Given an arbitrary spec identifier (lower-case, possibly underscore- or
dash-delimited words), produce a target-language-conventional identifier (upper
camel case)": the words, each with its first character in upper case. -/
def UpperCamelCase (s : String) : String :=
  String.mk ((identWords s.data).map upperFirst).flatten

/-- The static table of the primitive tokens (spec, section 4.2). -/
def primitiveTypes : List (String × String) :=
  [("string", "string"), ("int", "int"), ("bool", "bool"), ("float", "float64"),
   ("date", "time.Time"), ("bytes", "[]byte"), ("object", "interface\x7b\x7d")]

/-- The type expression of a token, array markers first. -/
def resolveToken (registry : List String) : List Char → List Char
  | '[' :: ']' :: inner => '[' :: ']' :: resolveToken registry inner
  | tok =>
    match primitiveTypes.lookup (String.mk tok) with
    | some go => go.data
    | none =>
      if String.mk tok ∈ registry then "types.".data ++ (UpperCamelCase (String.mk tok)).data
      else tok

/-- Modelled from the spec: `TypeMapper.SpecTypeToGoType`, whose source is not
at hand. Primitive tokens map through the static table, `[]inner` maps to a
sequence of the resolved inner type, a token naming a declared custom type maps
to a reference to its generated identifier in the types package. The call sites
(lines 155 and 206) take one string from it and no error, so a token that is
none of these comes back as a string as well: here, as it is. -/
def SpecTypeToGoType (t : TypeMapper) (specType : String) : String :=
  String.mk (resolveToken t.registry specType.data)

/-- Modelled from the spec: `sortParamData`, whose source is not at hand. Fields
marked "embed" precede all the others, "ties broken by original declaration
order". -/
def sortParamData (fields : GoMap ParamData) : List ParamData :=
  (fields.filter fun f => f.2.Embed).map Prod.snd ++
    (fields.filter fun f => !f.2.Embed).map Prod.snd

/-- The helpers as the spec describes them. -/
def specHelpers : Helpers :=
  { UpperCamelCase := UpperCamelCase
    SpecTypeToGoType := SpecTypeToGoType
    sortParamData := sortParamData }

/-- A parameter as the YAML parser leaves it: its type token and its enum
values, every other field at its zero value. -/
def rawParam (type : String) (enum : List Value) : ParamData :=
  { RawName := "", Name := "", Type_ := type, Required := false, Description := "",
    Enum := enum, Default := .null, Embed := false, Nullable := false, EnumLiteral := [] }

/-! ## Concrete runs -/

/-- A template engine for concrete runs: the asset at a path is the text `T:`
followed by the path, every text parses to itself, and executing a template
writes its text followed by `!`. -/
def sampleEngine : Engine :=
  { Template := String
    Asset := fun p => .ok ("T:" ++ p)
    Parse := fun _ b => .ok b
    Execute := fun t _ => (t ++ "!", none) }

/-- A file system holding one hand-written stub. -/
def sampleFS : FS :=
  ⟨[("/go/src/p/actions/a_run.go", .file "hand-written")]⟩

/-- The empty file system. -/
def emptyFS : FS :=
  ⟨[]⟩

/-! ## The connection identity key, in the words of the spec -/

/-- The references to the string-typed connection parameters: `c.` followed by
the derived identifier, for exactly the entries of the connection mapping whose
resolved type is `string`, one for each, in the order of the mapping. -/
def stringParamRefs (h : Helpers) (t : TypeMapper) (conn : GoMap ParamData) : List String :=
  (conn.filter fun np => decide (h.SpecTypeToGoType t np.2.Type_ = "string")).map
    fun np => "c." ++ h.UpperCamelCase np.1

/-- The identity key in the words of the spec: the references joined by the
separator ` + `, or the empty-string literal when there is none. -/
def identityKey (refs : List String) : String :=
  if refs = [] then "\"\"" else " + ".intercalate refs

/-- One reference appended to the key (lines 209 to 212). -/
def keyStep (key ref : String) : String :=
  (if key ≠ "" then key ++ " + " else key) ++ ref

/-- The key `postProcessSpec` leaves (lines 203 to 221): the key grown by the
loop, or the empty-string literal when that is empty. -/
def finalKey (h : Helpers) (s : PluginSpec) : String :=
  if (connectionLoop h (NewTypeMapper s) s.Connection s.ConnectionDataKey).2 = "" then "\"\""
  else (connectionLoop h (NewTypeMapper s) s.Connection s.ConnectionDataKey).2

/-- A freshly parsed specification with the connection parameters `a: string`,
`n: int` and `b: string`, visited in this order. -/
def specAB : PluginSpec :=
  { newPluginSpec "p" "plugin.spec.yaml" with
    Connection := [("a", rawParam "string" []), ("n", rawParam "int" []),
      ("b", rawParam "string" [])] }

/-- The specification `specAB` with its connection mapping visited in another
order: `b`, `n`, `a`. -/
def specBA : PluginSpec :=
  { specAB with
    Connection := [("b", rawParam "string" []), ("n", rawParam "int" []),
      ("a", rawParam "string" [])] }

/-! ## What the pass computes, for the statements -/

/-- The enum values of the parameters of a mapping. -/
def paramsEnumValues (data : GoMap ParamData) : List Value :=
  (data.map fun np => np.2.Enum).flatten

/-- The enum values of the inputs and outputs of actions or triggers. -/
def handlersEnumValues (hs : GoMap PluginHandlerData) : List Value :=
  (hs.map fun nh => paramsEnumValues nh.2.Input ++ paramsEnumValues nh.2.Output).flatten

/-- The enum values `postProcessSpec` marshals: those of the custom types, the
actions and the triggers (the connection loop marshals none). -/
def specEnumValues (s : PluginSpec) : List Value :=
  (s.RawTypes.map fun nt => paramsEnumValues nt.2).flatten ++
    handlersEnumValues s.Actions ++ handlersEnumValues s.Triggers

/-- What `updateParams` makes of one entry `np`: the key is kept, `RawName` is the
key, `Name` its `UpperCamelCase`, `Type` what the type mapper gives for the
token, and the enum literals are, value by value, the JSON text and the
parameter name followed by `UpperCamelCase` of the text. -/
def ParamUpdated (h : Helpers) (t : TypeMapper) (np np1 : String × ParamData) : Prop :=
  np1.1 = np.1 ∧ np1.2.RawName = np.1 ∧ np1.2.Name = h.UpperCamelCase np.1 ∧
    np1.2.Type_ = h.SpecTypeToGoType t np.2.Type_ ∧
    List.Forall₂
      (fun v e => jsonMarshal v = .ok e.LiteralValue ∧
        e.Name = h.UpperCamelCase np.1 ++ h.UpperCamelCase e.LiteralValue)
      np.2.Enum np1.2.EnumLiteral


/-- A handler as the YAML parser leaves it. -/
def rawHandler (input output : GoMap ParamData) : PluginHandlerData :=
  { RawName := "", Name := "", Title := "", Description := "", Input := input,
    Output := output, PackageRoot := "" }

/-- A specification whose type token `foo` names neither a primitive nor a
declared custom type, in a custom type, in the connection and in the input and
output of an action. -/
def fooSpec : PluginSpec :=
  { newPluginSpec "p" "plugin.spec.yaml" with
    RawTypes := [("thing", [("f", rawParam "foo" [])])]
    Connection := [("x", rawParam "foo" [])]
    Actions := [("act", rawHandler [("i", rawParam "foo" [])] [("o", rawParam "foo" [])])] }

/-- The actions of a specification with an enum value that has no JSON text: the
YAML mapping `a: 1` among the values of the input `mode` of the action `act`. -/
def badEnumActions : GoMap PluginHandlerData :=
  [("act", rawHandler [("mode", rawParam "string" [.map [(.str "a", .int 1)]])] [])]

/-- The specification with `badEnumActions`. -/
def badEnumSpec : PluginSpec :=
  { newPluginSpec "p" "plugin.spec.yaml" with Actions := badEnumActions }

/-- An environment for a concrete run: `GOPATH` is `/go`, the parser reads the
specification `badEnumSpec` from the file, and the toolchain steps do nothing. -/
def sampleEnv : Env :=
  { GOPATH := "/go"
    engine := sampleEngine
    Unmarshal := fun _ s => ({ s with Actions := badEnumActions }, none)
    runGoImports := fun _ fs => (none, fs)
    vendorPluginDeps := fun _ fs => (none, fs) }

/-- A file system holding the specification file only. -/
def specFS : FS :=
  ⟨[("plugin.spec.yaml", .file "actions: ...")]⟩

/-- A parameter mapping whose enum values all have a JSON text: the list
`["a","b"]`, the string `x` and the integer 3 for `mode`, none for `size`. -/
def sampleParams : GoMap ParamData :=
  [("mode", rawParam "string" [.seq [.str "a", .str "b"], .str "x", .int 3]),
   ("size", rawParam "int" [])]

/-! ## The place of an output file, for the statements -/

/-- The elements `path.Clean` keeps (innermost first) once it has read `p` on
top of the elements kept before. -/
def cleanStack (rooted : Bool) (stack : List (List Char)) (p : List Char) :
    List (List Char) :=
  (splitOnChar '/' p).foldl (cleanStep rooted) stack

/-- How `path.Clean` writes the elements it kept. -/
def renderPath (rooted : Bool) (elems : List (List Char)) : String :=
  if rooted then String.mk ('/' :: joinElems elems)
  else if joinElems elems = [] then "." else String.mk (joinElems elems)

/-- What `path.Join` puts in front of every output path: the value of `GOPATH`
unless it is empty, `/src/` and the package root, joined by slashes. -/
def baseText (gopath : String) (s : PluginSpec) : List Char :=
  joinElems ((if gopath = "" then ["/src/", s.PackageRoot]
    else [gopath, "/src/", s.PackageRoot]).map String.data)

/-- Whether the output paths are rooted. -/
def baseRooted (gopath : String) (s : PluginSpec) : Bool :=
  decide (['/'] <+: baseText gopath s)

/-- The elements of the package directory, innermost first. -/
def baseStack (gopath : String) (s : PluginSpec) : List (List Char) :=
  cleanStack (baseRooted gopath s) [] (baseText gopath s)

/-- The output path of the file `place.2` in the directories `place.1`
(outermost first) below the package directory. -/
def placePath (gopath : String) (s : PluginSpec) (place : List String × String) : String :=
  renderPath (baseRooted gopath s)
    ((baseStack gopath s).reverse ++ (place.1.map String.data ++ [place.2.data]))

/-- The places of the files rendered by one run, in the order of
`pluginEmissions`. -/
def pluginPlaces (s : PluginSpec) : List (List String × String) :=
  (s.Actions.map fun na =>
      [(["actions"], na.1 ++ ".go"), (["actions"], na.1 ++ "_run.go")]).flatten ++
    [(["connection"], "connection.go"), (["connection"], "connect.go"),
      (["connection"], "cache.go")] ++
    (s.Triggers.map fun nt =>
      [(["triggers"], nt.1 ++ ".go"), (["triggers"], nt.1 ++ "_run.go")]).flatten ++
    [(["cmd"], "main.go")] ++
    [(["server", "http"], "server.go")] ++
    (s.Actions.map fun na => (["server", "http"], na.1 ++ ".go")) ++
    (s.Types.map fun nt => (["types"], nt.1 ++ ".go")) ++
    [([], "Dockerfile"), ([], "Makefile")]

/-- A path element that `path.Clean` keeps as it is: not empty, free of slashes,
and neither `.` nor `..`. -/
def SimpleElem (e : List Char) : Prop :=
  '/' ∉ e ∧ e ≠ [] ∧ e ≠ ['.'] ∧ e ≠ ['.', '.']

/-- A specification with the actions `lookup` and `submit`, the trigger `poll`
and the custom type `thing`. -/
def sampleSpec : PluginSpec :=
  { newPluginSpec "p" "plugin.spec.yaml" with
    RawTypes := [("thing", [("larg", rawParam "int" [])])]
    Actions := [("lookup", rawHandler [] []), ("submit", rawHandler [] [])]
    Triggers := [("poll", rawHandler [] [])] }

/-- A specification with two actions, `x` and `x_run`. -/
def runNameSpec : PluginSpec :=
  { newPluginSpec "p" "plugin.spec.yaml" with
    Actions := [("x", rawHandler [] []), ("x_run", rawHandler [] [])] }

/-- A specification with one action, named `server`. -/
def serverNameSpec : PluginSpec :=
  { newPluginSpec "p" "plugin.spec.yaml" with Actions := [("server", rawHandler [] [])] }

/-- A specification with the action `../triggers/x` and the trigger `x`. -/
def slashNameSpec : PluginSpec :=
  { newPluginSpec "p" "plugin.spec.yaml" with
    Actions := [("../triggers/x", rawHandler [] [])]
    Triggers := [("x", rawHandler [] [])] }

/-- An environment whose parser reads the specification with the actions `x`
and `x_run`; the rest is as in `sampleEnv`. -/
def runNameEnv : Env :=
  { sampleEnv with Unmarshal := fun _ s => ({ s with Actions := runNameSpec.Actions }, none) }

/-- The file system after a first run of the compiler on the specification
with the actions `x` and `x_run`. -/
def firstRunFS : FS :=
  (main runNameEnv specHelpers "plugin.spec.yaml" "p" specFS).2

/-- The file system after the developer has written the implementation of the
action `x` into its stub, `actions/x_run.go`. -/
def editedFS : FS :=
  firstRunFS.set "/go/src/p/actions/x_run.go" (.file "hand-written")

/-- The file system after a first run on `sampleSpec` by `generatePlugin`, with
the stub of the action `lookup` then written by hand. -/
def sampleEditedFS : FS :=
  (generatePlugin sampleEnv (postProcessSpec specHelpers sampleSpec).1 specFS).2.set
    "/go/src/p/actions/lookup_run.go" (.file "hand-written")

/-! ## Pieces of a text, for the statements on `strings.Replace` -/

/-- The pieces put together with `sep` between them. -/
def joinPieces (sep : List Char) : List (List Char) → List Char
  | [] => []
  | [x] => x
  | x :: rest => x ++ sep ++ joinPieces sep rest

/-! # Theorems -/

/-! ## Lemmas on the file system -/

theorem FS.lookup_set_self (fs : FS) (p : String) (n : Node) :
    (fs.set p n).lookup p = some n := by
  simp [FS.set, FS.lookup, List.find?]

theorem osCreate_lookup {fs fs1 : FS} {p : String} (h : osCreate fs p = .ok fs1) :
    fs1.lookup p = some (.file "") := by
  unfold osCreate at h
  split at h
  · cases h
  · split at h
    · cases h
    · cases h
      exact FS.lookup_set_self _ _ _

theorem fileWrite_after_create {fs fs1 : FS} {p : String} (out : String)
    (h : osCreate fs p = .ok fs1) :
    (fileWrite fs1 p out).lookup p = some (.file out) := by
  have h1 := osCreate_lookup h
  unfold fileWrite
  rw [h1]
  simp only
  rw [FS.lookup_set_self, String.empty_append]

/-- What a successful call of `runTemplate` without the skip leaves at the
output path: the text written by `Execute`. -/
theorem runTemplate_success_content (e : Engine) (tp op : String) (data : Data)
    (fs fs1 : FS) (h : runTemplate e tp op data false fs = (none, fs1)) :
    ∃ b t, e.Asset tp = .ok b ∧ e.Parse tp b = .ok t ∧ (e.Execute t data).2 = none ∧
      fs1.lookup op = some (.file (e.Execute t data).1) := by
  unfold runTemplate at h
  simp only [Bool.false_and, Bool.false_eq_true, if_false] at h
  split at h
  · cases h
  · split at h
    · cases h
    · rename_i b hb
      split at h
      · cases h
      · rename_i t ht
        split at h
        · cases h
        · rename_i fs3 hc
          simp only [Prod.mk.injEq] at h
          refine ⟨b, t, hb, ht, h.1, ?_⟩
          rw [← h.2]
          exact fileWrite_after_create _ hc

/-! ## The skip of `runTemplate` -/

/-- When the output path already exists (it names a file or a directory),
`runTemplate` called with `skipIfExists = true` returns `nil` and the file
system it leaves is the one it was given: no content is modified, no directory
is created and nothing is written. -/
theorem runTemplate_skip_existing (e : Engine) (templatePath outputPath : String)
    (data : Data) (fs : FS) (n : Node) (hexists : fs.lookup outputPath = some n) :
    runTemplate e templatePath outputPath data true fs = (none, fs) := by
  unfold runTemplate doesFileExist osStat
  rw [hexists]
  simp [osIsNotExist]

/-! ## C2: which files are generate-once -/

/-- C2, as the code has it: in every run of the orchestrator the calls of
`runTemplate` with `skipIfExists = true` are exactly those that render
`action_x_run.template`, `trigger_x_run.template` and `connect.template`; they
go to an action's `<name>_run.go`, a trigger's `<name>_run.go` or the
connection's `connect.go`; each of these files is emitted so; and the
connection's `cache.go` is emitted with `skipIfExists = false`, like every other
rendered file. -/
theorem pluginEmissions_skip_policy (gopath : String) (s : PluginSpec) :
    (∀ em ∈ pluginEmissions gopath s, em.skipIfExists = true ↔
      (em.templatePath = "templates/actions/action_x_run.template" ∨
        em.templatePath = "templates/triggers/trigger_x_run.template" ∨
        em.templatePath = "templates/connection/connect.template")) ∧
    (∀ em ∈ pluginEmissions gopath s, em.skipIfExists = true →
      ((∃ na ∈ s.Actions, em.outputPath = outPath gopath s ["/actions/", na.1 ++ "_run.go"]) ∨
        (∃ nt ∈ s.Triggers, em.outputPath = outPath gopath s ["/triggers/", nt.1 ++ "_run.go"]) ∨
        em.outputPath = outPath gopath s ["/connection/connect.go"])) ∧
    (∀ na ∈ s.Actions, ∃ em ∈ pluginEmissions gopath s,
      em.outputPath = outPath gopath s ["/actions/", na.1 ++ "_run.go"] ∧
        em.templatePath = "templates/actions/action_x_run.template" ∧ em.skipIfExists = true) ∧
    (∀ nt ∈ s.Triggers, ∃ em ∈ pluginEmissions gopath s,
      em.outputPath = outPath gopath s ["/triggers/", nt.1 ++ "_run.go"] ∧
        em.templatePath = "templates/triggers/trigger_x_run.template" ∧ em.skipIfExists = true) ∧
    (∃ em ∈ pluginEmissions gopath s,
      em.outputPath = outPath gopath s ["/connection/connect.go"] ∧
        em.templatePath = "templates/connection/connect.template" ∧ em.skipIfExists = true) ∧
    (∃ em ∈ pluginEmissions gopath s,
      em.outputPath = outPath gopath s ["/connection/cache.go"] ∧
        em.templatePath = "templates/connection/cache.template" ∧ em.skipIfExists = false) := by
  refine ⟨?_, ?_, ?_, ?_, ?_, ?_⟩
  · intro em hem
    simp only [pluginEmissions, actionEmissions, connectionEmissions, triggerEmissions,
      cmdEmissions, httpServerEmissions, httpHandlerEmissions, typeEmissions,
      buildSupportEmissions, List.mem_append, List.mem_flatten, List.mem_map,
      List.mem_cons, List.mem_singleton, List.not_mem_nil, or_false] at hem
    rcases hem with ((((((⟨l, ⟨na, -, rfl⟩, h⟩ | h) | ⟨l, ⟨nt, -, rfl⟩, h⟩) | h) | h) |
      ⟨na, -, rfl⟩) | ⟨nt, -, rfl⟩) | h
    · simp only [List.mem_cons, List.mem_singleton, List.not_mem_nil, or_false] at h
      rcases h with rfl | rfl <;> simp
    · rcases h with rfl | rfl | rfl <;> simp
    · simp only [List.mem_cons, List.mem_singleton, List.not_mem_nil, or_false] at h
      rcases h with rfl | rfl <;> simp
    · subst h; simp
    · subst h; simp
    · simp
    · simp
    · rcases h with rfl | rfl <;> simp
  · intro em hem
    simp only [pluginEmissions, actionEmissions, connectionEmissions, triggerEmissions,
      cmdEmissions, httpServerEmissions, httpHandlerEmissions, typeEmissions,
      buildSupportEmissions, List.mem_append, List.mem_flatten, List.mem_map,
      List.mem_cons, List.mem_singleton, List.not_mem_nil, or_false] at hem
    rcases hem with ((((((⟨l, ⟨na, hna, rfl⟩, h⟩ | h) | ⟨l, ⟨nt, hnt, rfl⟩, h⟩) | h) | h) |
      ⟨na, -, rfl⟩) | ⟨nt, -, rfl⟩) | h
    · simp only [List.mem_cons, List.mem_singleton, List.not_mem_nil, or_false] at h
      rcases h with rfl | rfl
      · simp
      · exact fun _ => Or.inl ⟨na, hna, rfl⟩
    · rcases h with rfl | rfl | rfl
      · simp
      · exact fun _ => Or.inr (Or.inr rfl)
      · simp
    · simp only [List.mem_cons, List.mem_singleton, List.not_mem_nil, or_false] at h
      rcases h with rfl | rfl
      · simp
      · exact fun _ => Or.inr (Or.inl ⟨nt, hnt, rfl⟩)
    · subst h; simp
    · subst h; simp
    · simp
    · simp
    · rcases h with rfl | rfl <;> simp
  · intro na hna
    refine ⟨{ templatePath := "templates/actions/action_x_run.template"
              outputPath := outPath gopath s ["/actions/", na.1 ++ "_run.go"]
              data := .handler na.2
              skipIfExists := true }, ?_, rfl, rfl, rfl⟩
    unfold pluginEmissions
    iterate 7 apply List.mem_append_left
    simp only [actionEmissions, List.mem_flatten, List.mem_map]
    exact ⟨_, ⟨na, hna, rfl⟩, by simp⟩
  · intro nt hnt
    refine ⟨{ templatePath := "templates/triggers/trigger_x_run.template"
              outputPath := outPath gopath s ["/triggers/", nt.1 ++ "_run.go"]
              data := .handler nt.2
              skipIfExists := true }, ?_, rfl, rfl, rfl⟩
    unfold pluginEmissions
    iterate 5 apply List.mem_append_left
    apply List.mem_append_right
    simp only [triggerEmissions, List.mem_flatten, List.mem_map]
    exact ⟨_, ⟨nt, hnt, rfl⟩, by simp⟩
  · refine ⟨{ templatePath := "templates/connection/connect.template"
              outputPath := outPath gopath s ["/connection/connect.go"]
              data := .spec s
              skipIfExists := true }, ?_, rfl, rfl, rfl⟩
    unfold pluginEmissions
    iterate 6 apply List.mem_append_left
    apply List.mem_append_right
    simp [connectionEmissions]
  · refine ⟨{ templatePath := "templates/connection/cache.template"
              outputPath := outPath gopath s ["/connection/cache.go"]
              data := .spec s
              skipIfExists := false }, ?_, rfl, rfl, rfl⟩
    unfold pluginEmissions
    iterate 6 apply List.mem_append_left
    apply List.mem_append_right
    simp [connectionEmissions]

/-- C2 as stated fails at `cache.go`: for the empty specification with package
root `p` under `/go`, the one call that targets `connection/cache.go` renders
`cache.template` with `skipIfExists = false`. -/
theorem cache_go_is_regenerated :
    ((pluginEmissions "/go" (newPluginSpec "p" "plugin.spec.yaml")).filter
        (fun em => em.outputPath = "/go/src/p/connection/cache.go")).map
      (fun em => (em.templatePath, em.skipIfExists)) =
    [("templates/connection/cache.template", false)] := by
  decide

/-! ## C3: a regenerate-always file holds the new rendering only -/

/-- C3: for every template, data object and output path and any two file-system
states, if `runTemplate` with `skipIfExists = false` succeeds on both, then the
template asset parses and the output path holds, in both resulting states, a
regular file whose content is exactly what `Execute` wrote for the template and
the data: nothing of what either state held at the path before is left. -/
theorem runTemplate_overwrites (e : Engine) (templatePath outputPath : String)
    (data : Data) (fsA fsB fsA1 fsB1 : FS)
    (hA : runTemplate e templatePath outputPath data false fsA = (none, fsA1))
    (hB : runTemplate e templatePath outputPath data false fsB = (none, fsB1)) :
    ∃ b t, e.Asset templatePath = .ok b ∧ e.Parse templatePath b = .ok t ∧
      fsA1.lookup outputPath = some (.file (e.Execute t data).1) ∧
      fsB1.lookup outputPath = some (.file (e.Execute t data).1) := by
  obtain ⟨b, t, hb, ht, -, hcA⟩ := runTemplate_success_content e _ _ _ _ _ hA
  obtain ⟨b1, t1, hb1, ht1, -, hcB⟩ := runTemplate_success_content e _ _ _ _ _ hB
  rw [hb] at hb1
  cases hb1
  rw [ht] at ht1
  cases ht1
  exact ⟨b, t, hb, ht, hcA, hcB⟩

/-- C3, at a concrete input: the same call on a state where the output holds
hand-written text and on the empty state succeeds on both and leaves the
rendering in both. -/
theorem runTemplate_overwrites_witness :
    (runTemplate sampleEngine "t" "/go/src/p/actions/a_run.go"
        (.spec (newPluginSpec "p" "plugin.spec.yaml")) false sampleFS).1 = none ∧
      (runTemplate sampleEngine "t" "/go/src/p/actions/a_run.go"
        (.spec (newPluginSpec "p" "plugin.spec.yaml")) false emptyFS).1 = none ∧
      ∃ b t, sampleEngine.Asset "t" = .ok b ∧ sampleEngine.Parse "t" b = .ok t ∧
        (runTemplate sampleEngine "t" "/go/src/p/actions/a_run.go"
          (.spec (newPluginSpec "p" "plugin.spec.yaml")) false sampleFS).2.lookup
            "/go/src/p/actions/a_run.go" =
          some (.file (sampleEngine.Execute t (.spec (newPluginSpec "p" "plugin.spec.yaml"))).1) ∧
        (runTemplate sampleEngine "t" "/go/src/p/actions/a_run.go"
          (.spec (newPluginSpec "p" "plugin.spec.yaml")) false emptyFS).2.lookup
            "/go/src/p/actions/a_run.go" =
          some (.file (sampleEngine.Execute t (.spec (newPluginSpec "p" "plugin.spec.yaml"))).1) :=
  ⟨by rfl, by rfl,
    runTemplate_overwrites sampleEngine "t" "/go/src/p/actions/a_run.go"
      (.spec (newPluginSpec "p" "plugin.spec.yaml")) sampleFS emptyFS _ _ (by rfl) (by rfl)⟩

/-! ## Lemmas on the post-processing pass -/

theorem append_ne_empty_left {a : String} (b : String) (ha : a ≠ "") : a ++ b ≠ "" := by
  intro hab
  apply ha
  have := congrArg String.data hab
  simp only [String.data_append] at this
  apply String.ext
  simp only [List.append_eq_nil] at this
  exact this.1

theorem ref_ne_empty (x : String) : "c." ++ x ≠ "" :=
  append_ne_empty_left x (by decide)

theorem connectionLoop_key (h : Helpers) (t : TypeMapper) (conn : GoMap ParamData)
    (key : String) :
    (connectionLoop h t conn key).2 = (stringParamRefs h t conn).foldl keyStep key := by
  induction conn generalizing key with
  | nil => rfl
  | cons np rest ih =>
    obtain ⟨name, param⟩ := np
    simp only [connectionLoop, stringParamRefs, List.filter_cons]
    rw [ih]
    by_cases hs : h.SpecTypeToGoType t param.Type_ = "string"
    · simp [hs, stringParamRefs, keyStep]
    · simp [hs, stringParamRefs]

theorem foldl_keyStep_go (refs : List String) (acc : String) (hacc : acc ≠ "") :
    refs.foldl keyStep acc = String.intercalate.go acc " + " refs ∧
      refs.foldl keyStep acc ≠ "" := by
  induction refs generalizing acc with
  | nil => exact ⟨rfl, hacc⟩
  | cons r rest ih =>
    have hstep : keyStep acc r = acc ++ " + " ++ r := by simp [keyStep, hacc]
    have hne : acc ++ " + " ++ r ≠ "" :=
      append_ne_empty_left r (append_ne_empty_left " + " hacc)
    simp only [List.foldl_cons, String.intercalate.go, hstep]
    exact ih _ hne

theorem foldl_keyStep_nil_or_join (refs : List String) (hne : ∀ r ∈ refs, r ≠ "") :
    (refs = [] → refs.foldl keyStep "" = "") ∧
      (refs ≠ [] → refs.foldl keyStep "" = " + ".intercalate refs ∧
        refs.foldl keyStep "" ≠ "") := by
  cases refs with
  | nil => exact ⟨fun _ => rfl, fun hn => absurd rfl hn⟩
  | cons r rest =>
    have hr : r ≠ "" := hne r (List.mem_cons_self _ _)
    have hstep : keyStep "" r = r := by simp [keyStep]
    have := foldl_keyStep_go rest r hr
    refine ⟨fun hn => (by cases hn), fun _ => ?_⟩
    simp only [List.foldl_cons, hstep, String.intercalate]
    exact this

theorem stringParamRefs_ne_empty (h : Helpers) (t : TypeMapper) (conn : GoMap ParamData) :
    ∀ r ∈ stringParamRefs h t conn, r ≠ "" := by
  intro r hr
  simp only [stringParamRefs, List.mem_map] at hr
  obtain ⟨np, -, rfl⟩ := hr
  exact ref_ne_empty _

/-- The key left by `postProcessSpec` on a specification that comes with an
empty key, in terms of the references. -/
theorem finalKey_fresh (h : Helpers) (s : PluginSpec) (hfresh : s.ConnectionDataKey = "") :
    (stringParamRefs h (NewTypeMapper s) s.Connection = [] → finalKey h s = "\"\"") ∧
      (stringParamRefs h (NewTypeMapper s) s.Connection ≠ [] →
        finalKey h s = " + ".intercalate (stringParamRefs h (NewTypeMapper s) s.Connection)) := by
  have hkey := connectionLoop_key h (NewTypeMapper s) s.Connection s.ConnectionDataKey
  rw [hfresh] at hkey
  have hj := foldl_keyStep_nil_or_join _ (stringParamRefs_ne_empty h (NewTypeMapper s) s.Connection)
  unfold finalKey
  rw [hfresh, hkey]
  constructor
  · intro hnil
    rw [if_pos (hj.1 hnil)]
  · intro hne
    rw [if_neg (hj.2 hne).2]
    exact (hj.2 hne).1

theorem postProcessSpec_error (h : Helpers) (s : PluginSpec) :
    (postProcessSpec h s).2 =
      match (typesLoop h (NewTypeMapper s) s.RawTypes).2.2 with
      | some err => some err
      | none =>
        match (handlersLoop h (NewTypeMapper s) s.PackageRoot s.Actions).2 with
        | some err => some err
        | none => (handlersLoop h (NewTypeMapper s) s.PackageRoot s.Triggers).2 := by
  unfold postProcessSpec
  simp only
  cases hty : (typesLoop h (NewTypeMapper s) s.RawTypes).2.2 with
  | some err => rfl
  | none =>
    simp only
    by_cases hk : (connectionLoop h (NewTypeMapper s) s.Connection s.ConnectionDataKey).2 = ""
    all_goals
      simp only [hk, if_true, if_false]
      cases ha : (handlersLoop h (NewTypeMapper s) s.PackageRoot s.Actions).2 with
      | some err => rfl
      | none =>
        simp only
        cases htr : (handlersLoop h (NewTypeMapper s) s.PackageRoot s.Triggers).2 with
        | some err => rfl
        | none => rfl

theorem postProcessSpec_ok (h : Helpers) (s : PluginSpec)
    (hok : (postProcessSpec h s).2 = none) :
    (postProcessSpec h s).1 =
      { s with
        TypeMapper := some (NewTypeMapper s)
        RawTypes := (typesLoop h (NewTypeMapper s) s.RawTypes).1
        Types := (typesLoop h (NewTypeMapper s) s.RawTypes).2.1
        Connection := (connectionLoop h (NewTypeMapper s) s.Connection s.ConnectionDataKey).1
        ConnectionDataKey := finalKey h s
        Actions := (handlersLoop h (NewTypeMapper s) s.PackageRoot s.Actions).1
        Triggers := (handlersLoop h (NewTypeMapper s) s.PackageRoot s.Triggers).1
        HTTP := httpDefaults s.HTTP } := by
  have herr := postProcessSpec_error h s
  rw [hok] at herr
  cases hty : (typesLoop h (NewTypeMapper s) s.RawTypes).2.2 with
  | some err => rw [hty] at herr; cases herr
  | none =>
    rw [hty] at herr
    simp only at herr
    cases ha : (handlersLoop h (NewTypeMapper s) s.PackageRoot s.Actions).2 with
    | some err => rw [ha] at herr; cases herr
    | none =>
      rw [ha] at herr
      simp only at herr
      unfold postProcessSpec finalKey
      simp only [hty]
      by_cases hk : (connectionLoop h (NewTypeMapper s) s.Connection s.ConnectionDataKey).2 = ""
      all_goals simp only [hk, if_true, if_false, ha, herr.symm]


/-! ## C4: the connection identity key -/

/-- C4: for every specification that comes with an empty `ConnectionDataKey` and
on which `postProcessSpec` succeeds: if at least one connection parameter
resolves to the type `string`, the key is the references `c.` + derived
identifier of exactly the string-typed connection parameters, one for each,
joined by ` + `; if none does (an empty connection section included), the key is
the empty-string literal `""`. -/
theorem connectionDataKey_of_string_params (h : Helpers) (s s1 : PluginSpec)
    (hfresh : s.ConnectionDataKey = "") (hok : postProcessSpec h s = (s1, none)) :
    (stringParamRefs h (NewTypeMapper s) s.Connection ≠ [] →
        s1.ConnectionDataKey =
          " + ".intercalate (stringParamRefs h (NewTypeMapper s) s.Connection)) ∧
      (stringParamRefs h (NewTypeMapper s) s.Connection = [] →
        s1.ConnectionDataKey = "\"\"") := by
  have h2 : (postProcessSpec h s).2 = none := by rw [hok]
  have h1 := postProcessSpec_ok h s h2
  rw [hok] at h1
  simp only at h1
  have hk : s1.ConnectionDataKey = finalKey h s := by rw [h1]
  rw [hk]
  exact ⟨(finalKey_fresh h s hfresh).2, (finalKey_fresh h s hfresh).1⟩

/-- C4, at a concrete input: the connection `a: string`, `n: int`, `b: string`
gives the key `c.A + c.B`. -/
theorem connectionDataKey_of_string_params_witness :
    specAB.ConnectionDataKey = "" ∧
      (postProcessSpec specHelpers specAB).2 = none ∧
      stringParamRefs specHelpers (NewTypeMapper specAB) specAB.Connection = ["c.A", "c.B"] ∧
      (postProcessSpec specHelpers specAB).1.ConnectionDataKey = "c.A + c.B" :=
  ⟨by decide, by decide, by decide,
    ((connectionDataKey_of_string_params specHelpers specAB _ (by rfl) (by rfl)).1
      (by decide)).trans (by decide)⟩

/-! ## Lemmas on errors and on what `updateParams` stores -/

theorem enumLiterals_error (h : Helpers) (n : String) (vs : List Value) (err : Error)
    (he : enumLiterals h n vs = .error err) : ∃ v ∈ vs, jsonMarshal v = .error err := by
  induction vs with
  | nil => simp [enumLiterals] at he
  | cons v rest ih =>
    unfold enumLiterals at he
    split at he
    · rename_i e1 hv
      cases he
      exact ⟨v, List.mem_cons_self _ _, hv⟩
    · split at he
      · rename_i e1 hr
        cases he
        obtain ⟨w, hw, hm⟩ := ih hr
        exact ⟨w, List.mem_cons_of_mem _ hw, hm⟩
      · cases he

theorem enumLiterals_ok (h : Helpers) (n : String) (vs : List Value) (lits : List EnumData)
    (he : enumLiterals h n vs = .ok lits) :
    List.Forall₂
      (fun v e => jsonMarshal v = .ok e.LiteralValue ∧
        e.Name = n ++ h.UpperCamelCase e.LiteralValue) vs lits := by
  induction vs generalizing lits with
  | nil =>
    simp only [enumLiterals, Except.ok.injEq] at he
    subst he
    exact List.Forall₂.nil
  | cons v rest ih =>
    unfold enumLiterals at he
    split at he
    · cases he
    · rename_i b hv
      split at he
      · cases he
      · rename_i ls hr
        cases he
        exact List.Forall₂.cons ⟨hv, rfl⟩ (ih ls hr)

theorem enumLiterals_total (h : Helpers) (n : String) (vs : List Value)
    (hser : ∀ v ∈ vs, ∃ txt, jsonMarshal v = .ok txt) :
    ∃ lits, enumLiterals h n vs = .ok lits := by
  induction vs with
  | nil => exact ⟨[], rfl⟩
  | cons v rest ih =>
    obtain ⟨txt, hv⟩ := hser v (List.mem_cons_self _ _)
    obtain ⟨ls, hr⟩ := ih fun w hw => hser w (List.mem_cons_of_mem _ hw)
    exact ⟨⟨n ++ h.UpperCamelCase txt, txt⟩ :: ls, by simp [enumLiterals, hv, hr]⟩

theorem updateParams_error (h : Helpers) (t : TypeMapper) (data : GoMap ParamData)
    (err : Error) (he : (updateParams h t data).2 = some err) :
    ∃ v ∈ paramsEnumValues data, jsonMarshal v = .error err := by
  induction data with
  | nil => simp [updateParams] at he
  | cons np rest ih =>
    obtain ⟨name, param⟩ := np
    unfold updateParams at he
    split at he
    · rename_i e1 hu
      simp only [Option.some.injEq] at he
      subst he
      unfold updateParam at hu
      simp only at hu
      split at hu
      · rename_i e2 hl
        cases hu
        obtain ⟨v, hv, hm⟩ := enumLiterals_error _ _ _ _ hl
        exact ⟨v, by simp [paramsEnumValues]; exact Or.inl hv, hm⟩
      · cases hu
    · simp only at he
      obtain ⟨v, hv, hm⟩ := ih he
      refine ⟨v, ?_, hm⟩
      simp only [paramsEnumValues, List.map_cons, List.flatten_cons, List.mem_append]
      exact Or.inr hv

theorem updateParams_ok (h : Helpers) (t : TypeMapper) (data : GoMap ParamData)
    (he : (updateParams h t data).2 = none) :
    List.Forall₂ (ParamUpdated h t) data (updateParams h t data).1 := by
  induction data with
  | nil => exact List.Forall₂.nil
  | cons np rest ih =>
    obtain ⟨name, param⟩ := np
    unfold updateParams at he ⊢
    split at he
    · cases he
    · rename_i p1 hu
      simp only at he ⊢
      refine List.Forall₂.cons ?_ (ih he)
      unfold updateParam at hu
      simp only at hu
      split at hu
      · cases hu
      · rename_i ls hl
        cases hu
        exact ⟨rfl, rfl, rfl, rfl, enumLiterals_ok _ _ _ _ hl⟩

theorem updateParams_total (h : Helpers) (t : TypeMapper) (data : GoMap ParamData)
    (hser : ∀ v ∈ paramsEnumValues data, ∃ txt, jsonMarshal v = .ok txt) :
    (updateParams h t data).2 = none := by
  induction data with
  | nil => rfl
  | cons np rest ih =>
    obtain ⟨name, param⟩ := np
    have hser1 : ∀ v ∈ param.Enum, ∃ txt, jsonMarshal v = .ok txt := fun v hv =>
      hser v (by simp only [paramsEnumValues, List.map_cons, List.flatten_cons,
        List.mem_append]; exact Or.inl hv)
    have hser2 : ∀ v ∈ paramsEnumValues rest, ∃ txt, jsonMarshal v = .ok txt := fun v hv =>
      hser v (by simp only [paramsEnumValues, List.map_cons, List.flatten_cons,
        List.mem_append]; exact Or.inr hv)
    obtain ⟨ls, hl⟩ := enumLiterals_total h (h.UpperCamelCase name) param.Enum hser1
    unfold updateParams
    simp only [updateParam, hl]
    exact ih hser2

theorem typesLoop_error (h : Helpers) (t : TypeMapper) (rt : GoMap (GoMap ParamData))
    (err : Error) (he : (typesLoop h t rt).2.2 = some err) :
    ∃ v ∈ (rt.map fun nt => paramsEnumValues nt.2).flatten, jsonMarshal v = .error err := by
  induction rt with
  | nil => simp [typesLoop] at he
  | cons nt rest ih =>
    obtain ⟨name, data⟩ := nt
    unfold typesLoop at he
    simp only at he
    split at he
    · rename_i e1 hu
      simp only [Option.some.injEq] at he
      subst he
      obtain ⟨v, hv, hm⟩ := updateParams_error h t data _ hu
      refine ⟨v, ?_, hm⟩
      simp only [List.map_cons, List.flatten_cons, List.mem_append]
      exact Or.inl hv
    · simp only at he
      obtain ⟨v, hv, hm⟩ := ih he
      refine ⟨v, ?_, hm⟩
      simp only [List.map_cons, List.flatten_cons, List.mem_append]
      exact Or.inr hv

theorem typesLoop_total (h : Helpers) (t : TypeMapper) (rt : GoMap (GoMap ParamData))
    (hser : ∀ v ∈ (rt.map fun nt => paramsEnumValues nt.2).flatten,
      ∃ txt, jsonMarshal v = .ok txt) :
    (typesLoop h t rt).2.2 = none := by
  induction rt with
  | nil => rfl
  | cons nt rest ih =>
    obtain ⟨name, data⟩ := nt
    simp only [List.map_cons, List.flatten_cons, List.mem_append] at hser
    have h1 := updateParams_total h t data fun v hv => hser v (Or.inl hv)
    unfold typesLoop
    simp only [h1]
    exact ih fun v hv => hser v (Or.inr hv)

theorem handlersLoop_error (h : Helpers) (t : TypeMapper) (root : String)
    (hs : GoMap PluginHandlerData) (err : Error)
    (he : (handlersLoop h t root hs).2 = some err) :
    ∃ v ∈ handlersEnumValues hs, jsonMarshal v = .error err := by
  induction hs with
  | nil => simp [handlersLoop] at he
  | cons nh rest ih =>
    obtain ⟨name, action⟩ := nh
    unfold handlersLoop at he
    simp only at he
    split at he
    · rename_i e1 hi
      simp only [Option.some.injEq] at he
      subst he
      obtain ⟨v, hv, hm⟩ := updateParams_error h t action.Input _ hi
      refine ⟨v, ?_, hm⟩
      simp only [handlersEnumValues, List.map_cons, List.flatten_cons, List.mem_append]
      exact Or.inl (Or.inl hv)
    · split at he
      · rename_i e1 ho
        simp only [Option.some.injEq] at he
        subst he
        obtain ⟨v, hv, hm⟩ := updateParams_error h t action.Output _ ho
        refine ⟨v, ?_, hm⟩
        simp only [handlersEnumValues, List.map_cons, List.flatten_cons, List.mem_append]
        exact Or.inl (Or.inr hv)
      · simp only at he
        obtain ⟨v, hv, hm⟩ := ih he
        refine ⟨v, ?_, hm⟩
        simp only [handlersEnumValues, List.map_cons, List.flatten_cons, List.mem_append]
        exact Or.inr hv

theorem handlersLoop_total (h : Helpers) (t : TypeMapper) (root : String)
    (hs : GoMap PluginHandlerData)
    (hser : ∀ v ∈ handlersEnumValues hs, ∃ txt, jsonMarshal v = .ok txt) :
    (handlersLoop h t root hs).2 = none := by
  induction hs with
  | nil => rfl
  | cons nh rest ih =>
    obtain ⟨name, action⟩ := nh
    simp only [handlersEnumValues, List.map_cons, List.flatten_cons, List.mem_append] at hser
    have h1 := updateParams_total h t action.Input fun v hv => hser v (Or.inl (Or.inl hv))
    have h2 := updateParams_total h t action.Output fun v hv => hser v (Or.inl (Or.inr hv))
    unfold handlersLoop
    simp only [h1, h2]
    exact ih fun v hv => hser v (Or.inr hv)

theorem postProcessSpec_error_is_marshal (h : Helpers) (s : PluginSpec) (err : Error)
    (he : (postProcessSpec h s).2 = some err) :
    ∃ v ∈ specEnumValues s, jsonMarshal v = .error err := by
  rw [postProcessSpec_error] at he
  unfold specEnumValues
  split at he
  · rename_i e1 hty
    cases he
    obtain ⟨v, hv, hm⟩ := typesLoop_error _ _ _ _ hty
    exact ⟨v, List.mem_append_left _ (List.mem_append_left _ hv), hm⟩
  · split at he
    · rename_i e1 ha
      cases he
      obtain ⟨v, hv, hm⟩ := handlersLoop_error _ _ _ _ _ ha
      exact ⟨v, List.mem_append_left _ (List.mem_append_right _ hv), hm⟩
    · obtain ⟨v, hv, hm⟩ := handlersLoop_error _ _ _ _ _ he
      exact ⟨v, List.mem_append_right _ hv, hm⟩

theorem postProcessSpec_total (h : Helpers) (s : PluginSpec)
    (hser : ∀ v ∈ specEnumValues s, ∃ txt, jsonMarshal v = .ok txt) :
    (postProcessSpec h s).2 = none := by
  rw [postProcessSpec_error]
  simp only [specEnumValues, List.mem_append] at hser
  rw [typesLoop_total h _ _ fun v hv => hser v (Or.inl (Or.inl hv))]
  simp only
  rw [handlersLoop_total h _ _ _ fun v hv => hser v (Or.inl (Or.inr hv))]
  simp only
  exact handlersLoop_total h _ _ _ fun v hv => hser v (Or.inr hv)

theorem connectionLoop_entries (h : Helpers) (t : TypeMapper) (conn : GoMap ParamData)
    (key : String) :
    (connectionLoop h t conn key).1 = conn.map fun np =>
      (np.1, { np.2 with
        RawName := np.1
        Name := h.UpperCamelCase np.1
        Type_ := h.SpecTypeToGoType t np.2.Type_ }) := by
  induction conn generalizing key with
  | nil => rfl
  | cons np rest ih =>
    obtain ⟨name, param⟩ := np
    simp only [connectionLoop, List.map_cons]
    rw [ih]


/-! ## C5: an unresolved type token -/

/-- C5, as the code has it: a type token that names neither a primitive nor a
declared custom type is no error of `postProcessSpec`. Whatever the type mapper
and the tokens are, an error returned by `postProcessSpec` is the error of
`json.Marshal` on one of the enum values of the specification; when every enum
value has a JSON text `postProcessSpec` returns `nil`; and `updateParams` and the
connection loop store, for every parameter, the string the type mapper gives for
its token. -/
theorem unresolved_type_is_stored (h : Helpers) (t : TypeMapper) (s : PluginSpec) :
    (∀ err, (postProcessSpec h s).2 = some err →
      ∃ v ∈ specEnumValues s, jsonMarshal v = .error err) ∧
    ((∀ v ∈ specEnumValues s, ∃ txt, jsonMarshal v = .ok txt) →
      (postProcessSpec h s).2 = none) ∧
    (∀ data : GoMap ParamData, (updateParams h t data).2 = none →
      List.Forall₂
        (fun np np1 => np1.1 = np.1 ∧ np1.2.Type_ = h.SpecTypeToGoType t np.2.Type_)
        data (updateParams h t data).1) ∧
    (∀ (conn : GoMap ParamData) (key : String),
      (connectionLoop h t conn key).1.map (fun np => (np.1, np.2.Type_)) =
        conn.map fun np => (np.1, h.SpecTypeToGoType t np.2.Type_)) := by
  refine ⟨fun err he => postProcessSpec_error_is_marshal h s err he,
    fun hser => postProcessSpec_total h s hser, fun data hd => ?_, fun conn key => ?_⟩
  · exact (updateParams_ok h t data hd).imp fun _ _ hu => ⟨hu.1, hu.2.2.2.1⟩
  · rw [connectionLoop_entries, List.map_map]
    rfl

/-- C5 as stated fails: on `fooSpec`, whose parameters all have the type token
`foo`, no type mapper at all makes `postProcessSpec` return an error; with the
helpers of the spec it returns `nil`, and for every type mapper the connection
parameter `x` ends with the string the mapper gave for `foo` as its type. -/
theorem foo_token_returns_no_error :
    (postProcessSpec specHelpers fooSpec).2 = none ∧
      (¬ ∃ (h : Helpers) (err : Error), (postProcessSpec h fooSpec).2 = some err) ∧
      (∀ h : Helpers, (postProcessSpec h fooSpec).1.Connection.map (fun np => np.2.Type_) =
        [h.SpecTypeToGoType (NewTypeMapper fooSpec) "foo"]) := by
  have hnil : specEnumValues fooSpec = [] := by rfl
  refine ⟨by rfl, ?_, fun h => ?_⟩
  · rintro ⟨h, err, he⟩
    obtain ⟨v, hv, -⟩ := postProcessSpec_error_is_marshal h fooSpec err he
    rw [hnil] at hv
    cases hv
  · have hnone : (postProcessSpec h fooSpec).2 = none :=
      postProcessSpec_total h fooSpec fun v hv => by rw [hnil] at hv; cases hv
    rw [postProcessSpec_ok h fooSpec hnone]
    simp only
    rw [connectionLoop_entries]
    rfl

/-! ## C6: the error of `postProcessSpec` in `main` -/

/-- C6 fails on the code: `main` drops the value `postProcessSpec` returns
(line 142). On a specification with an enum value that is a YAML mapping,
`postProcessSpec` returns the error of `json.Marshal`, and `main` goes on to
`generatePlugin`: the run ends normally and the output files are written. -/
theorem main_ignores_postProcessSpec_error :
    (postProcessSpec specHelpers badEnumSpec).2 =
        some "json: unsupported type: map[interface \x7b\x7d]interface \x7b\x7d" ∧
      (sampleEnv.Unmarshal "actions: ..." (newPluginSpec "p" "plugin.spec.yaml")).2 = none ∧
      (main sampleEnv specHelpers "plugin.spec.yaml" "p" specFS).1 = none ∧
      (main sampleEnv specHelpers "plugin.spec.yaml" "p" specFS).2.lookup
          "/go/src/p/actions/act.go" =
        some (.file "T:templates/actions/action_x.template!") ∧
      specFS.lookup "/go/src/p/actions/act.go" = none := by
  refine ⟨by rfl, by rfl, by rfl, by decide, by decide⟩

/-! ## C8: the defaults of the HTTP settings -/

/-- C8: for every specification on which `postProcessSpec` returns without
error, each HTTP setting afterwards is its value before the call when that was
not zero, and otherwise its default: `Port` 10001, `ReadTimeout` 2,
`WriteTimeout` 2; a specification with no HTTP settings (all three zero) ends
with port 10001 and both timeouts 2. -/
theorem http_settings_defaulted (h : Helpers) (s s1 : PluginSpec)
    (hok : postProcessSpec h s = (s1, none)) :
    s1.HTTP.Port = (if s.HTTP.Port ≠ 0 then s.HTTP.Port else 10001) ∧
      s1.HTTP.ReadTimeout = (if s.HTTP.ReadTimeout ≠ 0 then s.HTTP.ReadTimeout else 2) ∧
      s1.HTTP.WriteTimeout = (if s.HTTP.WriteTimeout ≠ 0 then s.HTTP.WriteTimeout else 2) ∧
      (s.HTTP = ⟨0, 0, 0⟩ → s1.HTTP = ⟨10001, 2, 2⟩) := by
  have h2 : (postProcessSpec h s).2 = none := by rw [hok]
  have h1 := postProcessSpec_ok h s h2
  rw [hok] at h1
  simp only at h1
  have hh : s1.HTTP = httpDefaults s.HTTP := by rw [h1]
  rw [hh]
  refine ⟨?_, ?_, ?_, ?_⟩
  · unfold httpDefaults
    simp only
    split_ifs <;> simp_all
  · unfold httpDefaults
    simp only
    split_ifs <;> simp_all
  · unfold httpDefaults
    simp only
    split_ifs <;> simp_all
  · intro hz
    rw [hz]
    rfl

/-- C8, at a concrete input: `specAB` has no HTTP settings and ends with port
10001 and both timeouts 2. -/
theorem http_settings_defaulted_witness :
    (postProcessSpec specHelpers specAB).2 = none ∧
      (postProcessSpec specHelpers specAB).1.HTTP = ⟨10001, 2, 2⟩ :=
  ⟨by rfl, (http_settings_defaulted specHelpers specAB _ (by rfl)).2.2.2 (by rfl)⟩

/-! ## C9: the enum literals -/

/-- C9: for every parameter mapping whose enum values all serialize,
`updateParams` returns no error and gives each parameter (under its key, with
`Name` the `UpperCamelCase` of the key) an `EnumLiteral` sequence of the same
length as its `Enum`, whose i-th entry has `LiteralValue` equal to the JSON text
of the i-th enum value and `Name` equal to the parameter name followed by
`UpperCamelCase` of that text; and the list value `["a","b"]` has the JSON text
`["a","b"]`. -/
theorem updateParams_enum_literals (h : Helpers) (t : TypeMapper) (data : GoMap ParamData)
    (hser : ∀ np ∈ data, ∀ v ∈ np.2.Enum, ∃ txt, jsonMarshal v = .ok txt) :
    (updateParams h t data).2 = none ∧
      List.Forall₂
        (fun np np1 =>
          np1.1 = np.1 ∧ np1.2.Name = h.UpperCamelCase np.1 ∧
            np1.2.EnumLiteral.length = np.2.Enum.length ∧
            List.Forall₂
              (fun v e => jsonMarshal v = .ok e.LiteralValue ∧
                e.Name = np1.2.Name ++ h.UpperCamelCase e.LiteralValue)
              np.2.Enum np1.2.EnumLiteral)
        data (updateParams h t data).1 ∧
      jsonMarshal (.seq [.str "a", .str "b"]) = .ok "[\"a\",\"b\"]" := by
  have hnone : (updateParams h t data).2 = none := by
    apply updateParams_total
    intro v hv
    simp only [paramsEnumValues, List.mem_flatten, List.mem_map] at hv
    obtain ⟨l, ⟨np, hnp, rfl⟩, hvl⟩ := hv
    exact hser np hnp v hvl
  refine ⟨hnone, ?_, by rfl⟩
  refine (updateParams_ok h t data hnone).imp ?_
  intro np np1 hu
  obtain ⟨hkey, -, hname, -, hlits⟩ := hu
  refine ⟨hkey, hname, hlits.length_eq.symm, ?_⟩
  rw [hname]
  exact hlits

/-- C9, at a concrete input: the parameter `mode` with the enum values
`["a","b"]`, `x` and 3 gets three literals, the first with the text
`["a","b"]`. -/
theorem updateParams_enum_literals_witness :
    (updateParams specHelpers ⟨[]⟩ sampleParams).2 = none ∧
      ((updateParams specHelpers ⟨[]⟩ sampleParams).1.map fun np =>
          (np.1, np.2.Name, np.2.EnumLiteral.length, np.2.EnumLiteral.head?)) =
        [("mode", "Mode", 3, some ⟨"Mode[\"a\",\"b\"]", "[\"a\",\"b\"]"⟩),
         ("size", "Size", 0, none)] :=
  ⟨(updateParams_enum_literals specHelpers ⟨[]⟩ sampleParams (by
      intro np hnp v hv
      simp only [sampleParams, List.mem_cons, List.mem_singleton, List.not_mem_nil,
        or_false] at hnp
      rcases hnp with rfl | rfl
      · simp only [rawParam, List.mem_cons, List.mem_singleton, List.not_mem_nil,
          or_false] at hv
        rcases hv with rfl | rfl | rfl <;> exact ⟨_, rfl⟩
      · simp [rawParam] at hv)).1, by rfl⟩

/-! ## C7: the order of the connection mapping -/

theorem finalKey_identityKey (h : Helpers) (s : PluginSpec) (hfresh : s.ConnectionDataKey = "") :
    finalKey h s = identityKey (stringParamRefs h (NewTypeMapper s) s.Connection) := by
  unfold identityKey
  by_cases hn : stringParamRefs h (NewTypeMapper s) s.Connection = []
  · rw [if_pos hn]
    exact (finalKey_fresh h s hfresh).1 hn
  · rw [if_neg hn]
    exact (finalKey_fresh h s hfresh).2 hn

theorem perm_eq_of_length_le_one {α : Type} {l1 l2 : List α} (hp : l1.Perm l2)
    (hl : l2.length ≤ 1) : l1 = l2 := by
  match l2, hl with
  | [], _ => exact List.Perm.eq_nil hp
  | [a], _ => exact List.perm_singleton.mp hp
  | _ :: _ :: _, hl => simp at hl

/-- C7, as the code has it: for a specification that comes with an empty key,
visiting the connection mapping in another order changes neither the error
`postProcessSpec` returns nor, on success, any field but two: the connection
mapping holds the same enriched entries, and `ConnectionDataKey` is the identity
key of the same references in the order visited, so it is the same when at most
one connection parameter is string-typed (with two or more it follows the
order). -/
theorem postProcessSpec_connection_order (h : Helpers) (s : PluginSpec)
    (conn : GoMap ParamData) (hperm : conn.Perm s.Connection)
    (hfresh : s.ConnectionDataKey = "") :
    (postProcessSpec h { s with Connection := conn }).2 = (postProcessSpec h s).2 ∧
    ((postProcessSpec h s).2 = none →
      (postProcessSpec h { s with Connection := conn }).1.Connection.Perm
          (postProcessSpec h s).1.Connection ∧
        (stringParamRefs h (NewTypeMapper s) conn).Perm
          (stringParamRefs h (NewTypeMapper s) s.Connection) ∧
        (postProcessSpec h s).1.ConnectionDataKey =
          identityKey (stringParamRefs h (NewTypeMapper s) s.Connection) ∧
        (postProcessSpec h { s with Connection := conn }).1.ConnectionDataKey =
          identityKey (stringParamRefs h (NewTypeMapper s) conn) ∧
        ((stringParamRefs h (NewTypeMapper s) s.Connection).length ≤ 1 →
          (postProcessSpec h { s with Connection := conn }).1.ConnectionDataKey =
            (postProcessSpec h s).1.ConnectionDataKey) ∧
        (postProcessSpec h { s with Connection := conn }).1 =
          { (postProcessSpec h s).1 with
            Connection := (postProcessSpec h { s with Connection := conn }).1.Connection
            ConnectionDataKey :=
              (postProcessSpec h { s with Connection := conn }).1.ConnectionDataKey }) := by
  have herr : (postProcessSpec h { s with Connection := conn }).2 = (postProcessSpec h s).2 := by
    rw [postProcessSpec_error, postProcessSpec_error]
    rfl
  refine ⟨herr, fun hok => ?_⟩
  have hok1 : (postProcessSpec h { s with Connection := conn }).2 = none := herr.trans hok
  have hrefs : (stringParamRefs h (NewTypeMapper s) conn).Perm
      (stringParamRefs h (NewTypeMapper s) s.Connection) :=
    (hperm.filter _).map _
  have hk := finalKey_identityKey h s hfresh
  have hk1 := finalKey_identityKey h { s with Connection := conn } hfresh
  rw [postProcessSpec_ok h s hok, postProcessSpec_ok h _ hok1]
  refine ⟨?_, hrefs, hk, hk1, fun hlen => ?_, rfl⟩
  · simp only
    rw [connectionLoop_entries, connectionLoop_entries]
    exact hperm.map _
  · simp only
    rw [hk]
    rw [← perm_eq_of_length_le_one hrefs hlen]
    exact hk1

/-- C7, at a concrete input: `specAB` and its connection mapping reversed. -/
theorem postProcessSpec_connection_order_witness :
    specAB.Connection.reverse.Perm specAB.Connection ∧ specAB.ConnectionDataKey = "" ∧
      (postProcessSpec specHelpers specAB).2 = none ∧
      (postProcessSpec specHelpers { specAB with Connection := specAB.Connection.reverse }).2 =
        (postProcessSpec specHelpers specAB).2 ∧
      (stringParamRefs specHelpers (NewTypeMapper specAB) specAB.Connection.reverse).Perm
        (stringParamRefs specHelpers (NewTypeMapper specAB) specAB.Connection) :=
  ⟨List.reverse_perm _, rfl, by rfl,
    (postProcessSpec_connection_order specHelpers specAB specAB.Connection.reverse
      (List.reverse_perm _) rfl).1,
    ((postProcessSpec_connection_order specHelpers specAB specAB.Connection.reverse
      (List.reverse_perm _) rfl).2 (by rfl)).2.1⟩

/-- C7 as stated fails: the connection parameters `a: string`, `n: int`,
`b: string` visited in this order give the key `c.A + c.B`, and the same mapping
visited in the reverse order gives `c.B + c.A`. -/
theorem connectionDataKey_follows_order :
    specBA.Connection = specAB.Connection.reverse ∧
      (postProcessSpec specHelpers specAB).2 = none ∧
      (postProcessSpec specHelpers specBA).2 = none ∧
      (postProcessSpec specHelpers specAB).1.ConnectionDataKey = "c.A + c.B" ∧
      (postProcessSpec specHelpers specBA).1.ConnectionDataKey = "c.B + c.A" ∧
      (postProcessSpec specHelpers specAB).1.ConnectionDataKey ≠
        (postProcessSpec specHelpers specBA).1.ConnectionDataKey := by
  refine ⟨by rfl, by rfl, by rfl, by decide, by decide, by decide⟩

/-! ## Lemmas on `strings.Index` and `strings.Replace` -/

theorem replaceGo_cons_pos (old new : List Char) (c : Char) (cs : List Char)
    (hp : old <+: c :: cs) :
    replaceGo old new 0 (c :: cs) = new ++ replaceGo old new (old.length - 1) cs := by
  simp only [replaceGo, hp, if_true]

theorem replaceGo_cons_neg (old new : List Char) (c : Char) (cs : List Char)
    (hp : ¬ old <+: c :: cs) :
    replaceGo old new 0 (c :: cs) = c :: replaceGo old new 0 cs := by
  simp only [replaceGo, hp, if_false]

theorem replaceGo_of_free (old new : List Char) (l : List Char)
    (hn : ¬ old <:+: l) : replaceGo old new 0 l = l := by
  induction l with
  | nil => rfl
  | cons c cs ih =>
    have h1 : ¬ old <+: c :: cs := fun hp => hn hp.isInfix
    have h2 : ¬ old <:+: cs := fun hi => hn (List.infix_cons hi)
    rw [replaceGo_cons_neg _ _ _ _ h1, ih h2]

theorem replaceGo_skip (old new : List Char) (xs rest : List Char) :
    replaceGo old new xs.length (xs ++ rest) = replaceGo old new 0 rest := by
  induction xs with
  | nil => rfl
  | cons x xs ih =>
    cases rest with
    | nil =>
      simp only [List.length_cons, List.cons_append, replaceGo]
      simpa using ih
    | cons r rs =>
      simp only [List.length_cons, List.cons_append, replaceGo]
      exact ih

theorem replaceGo_match (c : Char) (old new : List Char) (rest : List Char) :
    replaceGo (c :: old) new 0 (c :: old ++ rest) = new ++ replaceGo (c :: old) new 0 rest := by
  have hp : (c :: old) <+: (c :: (old ++ rest)) := List.prefix_append (c :: old) rest
  rw [List.cons_append, replaceGo_cons_pos _ _ _ _ hp, List.length_cons, Nat.add_sub_cancel,
    replaceGo_skip]

theorem indexFrom_of_occurs (sub l : List Char) (i : Nat) (hi : sub <:+: l) :
    ∃ k, indexFrom sub l i = some k := by
  induction l generalizing i with
  | nil =>
    have : sub = [] := List.eq_nil_of_infix_nil hi
    exact ⟨i, by simp [indexFrom, this]⟩
  | cons c cs ih =>
    by_cases hp : sub <+: c :: cs
    · exact ⟨i, by simp [indexFrom, hp]⟩
    · rw [List.infix_cons_iff] at hi
      rcases hi with h1 | h1
      · exact absurd h1 hp
      · obtain ⟨k, hk⟩ := ih (i + 1) h1
        exact ⟨k, by simp [indexFrom, hp, hk]⟩

theorem stringsIndex_of_occurs (s sub : String) (hi : sub.data <:+: s.data) :
    stringsIndex s sub > -1 := by
  obtain ⟨k, hk⟩ := indexFrom_of_occurs sub.data s.data 0 hi
  unfold stringsIndex
  rw [hk]
  simp only
  omega

theorem stringsReplaceAll_types (s : String) :
    stringsReplaceAll s "types." "" = String.mk (replaceGo "types.".data [] 0 s.data) := by
  unfold stringsReplaceAll
  rw [if_neg (by decide)]

/-! ## Lemmas on `path.Join` -/

theorem splitOnChar_ne_nil (sep : Char) (l : List Char) : splitOnChar sep l ≠ [] := by
  induction l with
  | nil => simp [splitOnChar]
  | cons c cs ih =>
    unfold splitOnChar
    split
    · simp
    · split <;> simp

theorem splitOnChar_cons_sep (sep : Char) (cs : List Char) :
    splitOnChar sep (sep :: cs) = [] :: splitOnChar sep cs := by
  simp [splitOnChar]

theorem splitOnChar_cons_ne (sep c : Char) (cs w : List Char) (ws : List (List Char))
    (hc : c ≠ sep) (hs : splitOnChar sep cs = w :: ws) :
    splitOnChar sep (c :: cs) = (c :: w) :: ws := by
  simp [splitOnChar, hc, hs]

theorem splitOnChar_append_sep (sep : Char) (a b : List Char) :
    splitOnChar sep (a ++ sep :: b) = splitOnChar sep a ++ splitOnChar sep b := by
  induction a with
  | nil => simp [splitOnChar]
  | cons c cs ih =>
    by_cases hc : c = sep
    · subst hc
      rw [List.cons_append, splitOnChar_cons_sep, splitOnChar_cons_sep, ih]
      rfl
    · cases hs : splitOnChar sep cs with
      | nil => exact absurd hs (splitOnChar_ne_nil sep cs)
      | cons w ws =>
        rw [hs] at ih
        rw [List.cons_append, splitOnChar_cons_ne sep c _ w (ws ++ splitOnChar sep b) hc ih,
          splitOnChar_cons_ne sep c cs w ws hc hs]
        rfl

theorem splitOnChar_of_not_mem (sep : Char) (l : List Char) (h : sep ∉ l) :
    splitOnChar sep l = [l] := by
  induction l with
  | nil => rfl
  | cons c cs ih =>
    have hc : c ≠ sep := fun e => h (e ▸ List.mem_cons_self _ _)
    have hcs : sep ∉ cs := fun e => h (List.mem_cons_of_mem _ e)
    simp only [splitOnChar, hc, if_false, ih hcs]

theorem splitOnChar_pieces (sep : Char) (l : List Char) :
    ∀ w ∈ splitOnChar sep l, sep ∉ w := by
  induction l with
  | nil => simp [splitOnChar]
  | cons c cs ih =>
    intro w hw
    by_cases hc : c = sep
    · simp only [splitOnChar, hc, if_true, List.mem_cons] at hw
      rcases hw with rfl | hw
      · simp
      · exact ih w hw
    · simp only [splitOnChar, hc, if_false] at hw
      cases hs : splitOnChar sep cs with
      | nil => exact absurd hs (splitOnChar_ne_nil sep cs)
      | cons v vs =>
        rw [hs] at hw ih
        simp only [List.mem_cons] at hw
        rcases hw with rfl | hw
        · intro hm
          simp only [List.mem_cons] at hm
          rcases hm with e | hm
          · exact hc e.symm
          · exact ih v (List.mem_cons_self _ _) hm
        · exact ih w (List.mem_cons_of_mem _ hw)

theorem joinElems_append (a b : List (List Char)) (ha : a ≠ []) (hb : b ≠ []) :
    joinElems (a ++ b) = joinElems a ++ '/' :: joinElems b := by
  induction a with
  | nil => exact absurd rfl ha
  | cons x xs ih =>
    cases xs with
    | nil =>
      cases b with
      | nil => exact absurd rfl hb
      | cons y ys => simp [joinElems]
    | cons x1 xs1 =>
      have := ih (by simp)
      simp only [List.cons_append] at this ⊢
      simp only [joinElems, this, List.append_assoc, List.cons_append]

theorem splitOnChar_joinElems (l : List (List Char)) (hl : l ≠ [])
    (hs : ∀ e ∈ l, '/' ∉ e) : splitOnChar '/' (joinElems l) = l := by
  induction l with
  | nil => exact absurd rfl hl
  | cons x xs ih =>
    cases xs with
    | nil => exact splitOnChar_of_not_mem _ _ (hs x (List.mem_cons_self _ _))
    | cons y ys =>
      have h1 := ih (by simp) fun e he => hs e (List.mem_cons_of_mem _ he)
      simp only [joinElems]
      rw [splitOnChar_append_sep, splitOnChar_of_not_mem _ _ (hs x (List.mem_cons_self _ _))]
      simp only [joinElems] at h1
      rw [h1]
      rfl

theorem cleanStack_append_sep (r : Bool) (st : List (List Char)) (a b : List Char) :
    cleanStack r st (a ++ '/' :: b) = cleanStack r (cleanStack r st a) b := by
  simp only [cleanStack, splitOnChar_append_sep, List.foldl_append]

theorem cleanStep_push (r : Bool) (st : List (List Char)) (el : List Char)
    (h0 : el ≠ []) (h1 : el ≠ ['.']) (h2 : el ≠ ['.', '.']) :
    cleanStep r st el = el :: st := by
  simp [cleanStep, h0, h1, h2]

theorem cleanStep_empty (r : Bool) (st : List (List Char)) : cleanStep r st [] = st := by
  simp [cleanStep]

theorem cleanStack_simple (r : Bool) (st : List (List Char)) (el : List Char)
    (hs : '/' ∉ el) (h0 : el ≠ []) (h1 : el ≠ ['.']) (h2 : el ≠ ['.', '.']) :
    cleanStack r st el = el :: st := by
  simp only [cleanStack, splitOnChar_of_not_mem _ _ hs, List.foldl_cons, List.foldl_nil]
  exact cleanStep_push r st el h0 h1 h2

theorem cleanStep_no_slash (r : Bool) (st : List (List Char)) (el : List Char)
    (hst : ∀ e ∈ st, '/' ∉ e) (hel : '/' ∉ el) : ∀ e ∈ cleanStep r st el, '/' ∉ e := by
  unfold cleanStep
  split
  · exact hst
  · split
    · split
      · split
        · simp
        · intro e he
          simp only [List.mem_singleton] at he
          exact he ▸ hel
      · rename_i top below
        split
        · intro e he
          simp only [List.mem_cons] at he
          rcases he with rfl | rfl | he
          · exact hel
          · exact hst _ (List.mem_cons_self _ _)
          · exact hst e (List.mem_cons_of_mem _ he)
        · intro e he
          exact hst e (List.mem_cons_of_mem _ he)
    · intro e he
      simp only [List.mem_cons] at he
      rcases he with rfl | he
      · exact hel
      · exact hst e he

theorem foldl_cleanStep_no_slash (r : Bool) (pieces : List (List Char))
    (st : List (List Char)) (hst : ∀ e ∈ st, '/' ∉ e) (hp : ∀ w ∈ pieces, '/' ∉ w) :
    ∀ e ∈ pieces.foldl (cleanStep r) st, '/' ∉ e := by
  induction pieces generalizing st with
  | nil => exact hst
  | cons w ws ih =>
    simp only [List.foldl_cons]
    exact ih _ (cleanStep_no_slash r st w hst (hp w (List.mem_cons_self _ _)))
      fun v hv => hp v (List.mem_cons_of_mem _ hv)

theorem cleanStack_no_slash (r : Bool) (st : List (List Char)) (p : List Char)
    (hst : ∀ e ∈ st, '/' ∉ e) : ∀ e ∈ cleanStack r st p, '/' ∉ e :=
  foldl_cleanStep_no_slash r _ st hst (splitOnChar_pieces '/' p)

theorem baseText_ne_nil (gopath : String) (s : PluginSpec) : baseText gopath s ≠ [] := by
  unfold baseText
  by_cases hg : gopath = ""
  · simp [hg, joinElems]
  · have hd : gopath.data ≠ [] := fun h => hg (String.ext h)
    simp [hg, joinElems, hd]

theorem rooted_append (a b : List Char) (ha : a ≠ []) :
    decide (['/'] <+: a ++ b) = decide (['/'] <+: a) := by
  cases a with
  | nil => exact absurd rfl ha
  | cons c cs => simp

theorem pathClean_eq (p : String) :
    pathClean p =
      renderPath (decide (['/'] <+: p.data))
        (cleanStack (decide (['/'] <+: p.data)) [] p.data).reverse := by
  rfl

theorem dropWhile_base (gopath : String) (s : PluginSpec) (rest : List String) :
    ([gopath, "/src/", s.PackageRoot] ++ rest).dropWhile (fun e => decide (e = "")) =
      (if gopath = "" then ["/src/", s.PackageRoot] else [gopath, "/src/", s.PackageRoot]) ++
        rest := by
  by_cases hg : gopath = ""
  · simp [hg, List.dropWhile]
  · simp [hg, List.dropWhile]

theorem outPath_eq (gopath : String) (s : PluginSpec) (rest : List String)
    (hrest : rest ≠ []) :
    outPath gopath s rest =
      renderPath (baseRooted gopath s)
        (cleanStack (baseRooted gopath s) (baseStack gopath s)
          (joinElems (rest.map String.data))).reverse := by
  have hjoin : joinElems
      (((if gopath = "" then ["/src/", s.PackageRoot]
        else [gopath, "/src/", s.PackageRoot]) ++ rest).map String.data) =
      baseText gopath s ++ '/' :: joinElems (rest.map String.data) := by
    rw [List.map_append]
    apply joinElems_append
    · by_cases hg : gopath = "" <;> simp [hg]
    · simpa using hrest
  unfold outPath pathJoin
  rw [dropWhile_base]
  split
  · rename_i heq
    by_cases hg : gopath = "" <;> simp [hg] at heq
  · rw [pathClean_eq]
    simp only [hjoin]
    rw [rooted_append _ _ (baseText_ne_nil gopath s), cleanStack_append_sep]
    rfl

theorem cleanStack_nil (r : Bool) (st : List (List Char)) : cleanStack r st [] = st := by
  simp [cleanStack, splitOnChar, cleanStep_empty]

theorem cleanStack_lead_slash (r : Bool) (st : List (List Char)) (x : List Char) :
    cleanStack r st ('/' :: x) = cleanStack r st x := by
  have := cleanStack_append_sep r st [] x
  rw [List.nil_append, cleanStack_nil] at this
  exact this

theorem cleanStack_simple_then (r : Bool) (st : List (List Char)) (d x : List Char)
    (hd : SimpleElem d) :
    cleanStack r st (d ++ '/' :: x) = cleanStack r (d :: st) x := by
  rw [cleanStack_append_sep, cleanStack_simple r st d hd.1 hd.2.1 hd.2.2.1 hd.2.2.2]

theorem simpleElem_of_suffix (n suffix : List Char) (hn : '/' ∉ n) (hs : '/' ∉ suffix)
    (hl : 3 ≤ suffix.length) : SimpleElem (n ++ suffix) := by
  refine ⟨?_, ?_, ?_, ?_⟩
  · simp only [List.mem_append, not_or]
    exact ⟨hn, hs⟩
  all_goals
    intro h
    have := congrArg List.length h
    simp only [List.length_append, List.length_cons, List.length_nil] at this
    omega

theorem simpleElem_go (n : String) (hn : '/' ∉ n.data) : SimpleElem (n ++ ".go").data := by
  rw [String.data_append]
  exact simpleElem_of_suffix _ _ hn (by decide) (by decide)

theorem simpleElem_run_go (n : String) (hn : '/' ∉ n.data) :
    SimpleElem (n ++ "_run.go").data := by
  rw [String.data_append]
  exact simpleElem_of_suffix _ _ hn (by decide) (by decide)

/-- The output path of a file given by the text of its directories and a simple
file name. -/
theorem outPath_place (gopath : String) (s : PluginSpec) (rest : List String)
    (dirText : List Char) (dirs : List String) (file : String) (hrest : rest ≠ [])
    (hj : joinElems (rest.map String.data) = dirText ++ '/' :: file.data)
    (hd : ∀ r st, cleanStack r st dirText = (dirs.map String.data).reverse ++ st)
    (hf : SimpleElem file.data) :
    outPath gopath s rest = placePath gopath s (dirs, file) := by
  rw [outPath_eq gopath s rest hrest, hj, cleanStack_append_sep, hd,
    cleanStack_simple _ _ _ hf.1 hf.2.1 hf.2.2.1 hf.2.2.2]
  unfold placePath
  simp

theorem outPath_file (gopath : String) (s : PluginSpec) (file : String)
    (hf : SimpleElem file.data) :
    outPath gopath s [file] = placePath gopath s ([], file) := by
  rw [outPath_eq gopath s [file] (by simp)]
  simp only [List.map_cons, List.map_nil, joinElems]
  rw [cleanStack_simple _ _ _ hf.1 hf.2.1 hf.2.2.1 hf.2.2.2]
  unfold placePath
  simp

theorem cleanStack_dir1 (d : List Char) (hd : SimpleElem d) (r : Bool)
    (st : List (List Char)) : cleanStack r st ('/' :: (d ++ ['/'])) = [d] ++ st := by
  rw [cleanStack_lead_slash, cleanStack_simple_then r st d [] hd, cleanStack_nil]
  rfl

theorem cleanStack_dir2 (d1 d2 : List Char) (h1 : SimpleElem d1) (h2 : SimpleElem d2)
    (r : Bool) (st : List (List Char)) :
    cleanStack r st ('/' :: (d1 ++ '/' :: (d2 ++ ['/']))) = [d2, d1] ++ st := by
  rw [cleanStack_lead_slash, cleanStack_simple_then r st d1 _ h1,
    cleanStack_simple_then r _ d2 [] h2, cleanStack_nil]
  rfl

theorem cleanStack_dir0 (d : List Char) (hd : SimpleElem d) (r : Bool)
    (st : List (List Char)) : cleanStack r st ('/' :: d) = [d] ++ st := by
  rw [cleanStack_lead_slash, cleanStack_simple r st d hd.1 hd.2.1 hd.2.2.1 hd.2.2.2]
  rfl

theorem outPath_actions (gopath : String) (s : PluginSpec) (file : String)
    (hf : SimpleElem file.data) :
    outPath gopath s ["/actions/", file] = placePath gopath s (["actions"], file) :=
  outPath_place gopath s _ "/actions/".data ["actions"] file (by simp) (by rfl)
    (cleanStack_dir1 "actions".data (by unfold SimpleElem; decide)) hf

theorem outPath_triggers (gopath : String) (s : PluginSpec) (file : String)
    (hf : SimpleElem file.data) :
    outPath gopath s ["/triggers/", file] = placePath gopath s (["triggers"], file) :=
  outPath_place gopath s _ "/triggers/".data ["triggers"] file (by simp) (by rfl)
    (cleanStack_dir1 "triggers".data (by unfold SimpleElem; decide)) hf

theorem outPath_types (gopath : String) (s : PluginSpec) (file : String)
    (hf : SimpleElem file.data) :
    outPath gopath s ["/types/", file] = placePath gopath s (["types"], file) :=
  outPath_place gopath s _ "/types/".data ["types"] file (by simp) (by rfl)
    (cleanStack_dir1 "types".data (by unfold SimpleElem; decide)) hf

theorem outPath_cmd (gopath : String) (s : PluginSpec) (file : String)
    (hf : SimpleElem file.data) :
    outPath gopath s ["/cmd/", file] = placePath gopath s (["cmd"], file) :=
  outPath_place gopath s _ "/cmd/".data ["cmd"] file (by simp) (by rfl)
    (cleanStack_dir1 "cmd".data (by unfold SimpleElem; decide)) hf

theorem outPath_connection (gopath : String) (s : PluginSpec) (file : String)
    (hf : SimpleElem file.data) :
    outPath gopath s ["/connection/", file] = placePath gopath s (["connection"], file) :=
  outPath_place gopath s _ "/connection/".data ["connection"] file (by simp) (by rfl)
    (cleanStack_dir1 "connection".data (by unfold SimpleElem; decide)) hf

theorem outPath_server_http (gopath : String) (s : PluginSpec) (file : String)
    (hf : SimpleElem file.data) :
    outPath gopath s ["/server/http/", file] =
      placePath gopath s (["server", "http"], file) :=
  outPath_place gopath s _ "/server/http/".data ["server", "http"] file (by simp) (by rfl)
    (cleanStack_dir2 "server".data "http".data (by unfold SimpleElem; decide)
      (by unfold SimpleElem; decide)) hf

theorem outPath_connect_go (gopath : String) (s : PluginSpec) :
    outPath gopath s ["/connection/connect.go"] =
      placePath gopath s (["connection"], "connect.go") :=
  outPath_place gopath s _ "/connection".data ["connection"] "connect.go" (by simp) (by rfl)
    (cleanStack_dir0 "connection".data (by unfold SimpleElem; decide))
    (by unfold SimpleElem; decide)

theorem outPath_cache_go (gopath : String) (s : PluginSpec) :
    outPath gopath s ["/connection/cache.go"] =
      placePath gopath s (["connection"], "cache.go") :=
  outPath_place gopath s _ "/connection".data ["connection"] "cache.go" (by simp) (by rfl)
    (cleanStack_dir0 "connection".data (by unfold SimpleElem; decide))
    (by unfold SimpleElem; decide)

theorem map_flatten_pairs {α β γ : Type} (l : List α) (f g : α → β) (k : β → γ) :
    ((l.map fun a => [f a, g a]).flatten).map k =
      (l.map fun a => [k (f a), k (g a)]).flatten := by
  induction l with
  | nil => rfl
  | cons a as ih => simp [ih]

/-- The output paths of one run are the paths of its places, when no action,
trigger or type name contains a slash. -/
theorem pluginEmissions_paths (gopath : String) (s : PluginSpec)
    (hsA : ∀ na ∈ s.Actions, '/' ∉ na.1.data) (hsT : ∀ nt ∈ s.Triggers, '/' ∉ nt.1.data)
    (hsY : ∀ nt ∈ s.Types, '/' ∉ nt.1.data) :
    (pluginEmissions gopath s).map (fun em => em.outputPath) =
      (pluginPlaces s).map (placePath gopath s) := by
  have hA : ((actionEmissions gopath s).map fun em => em.outputPath) =
      ((s.Actions.map fun na =>
        [(["actions"], na.1 ++ ".go"), (["actions"], na.1 ++ "_run.go")]).flatten).map
          (placePath gopath s) := by
    unfold actionEmissions
    rw [map_flatten_pairs, map_flatten_pairs]
    congr 1
    apply List.map_congr_left
    intro na hna
    simp only
    rw [outPath_actions _ _ _ (simpleElem_go _ (hsA na hna)),
      outPath_actions _ _ _ (simpleElem_run_go _ (hsA na hna))]
  have hT : ((triggerEmissions gopath s).map fun em => em.outputPath) =
      ((s.Triggers.map fun nt =>
        [(["triggers"], nt.1 ++ ".go"), (["triggers"], nt.1 ++ "_run.go")]).flatten).map
          (placePath gopath s) := by
    unfold triggerEmissions
    rw [map_flatten_pairs, map_flatten_pairs]
    congr 1
    apply List.map_congr_left
    intro nt hnt
    simp only
    rw [outPath_triggers _ _ _ (simpleElem_go _ (hsT nt hnt)),
      outPath_triggers _ _ _ (simpleElem_run_go _ (hsT nt hnt))]
  have hH : ((httpHandlerEmissions gopath s).map fun em => em.outputPath) =
      (s.Actions.map fun na => (["server", "http"], na.1 ++ ".go")).map
        (placePath gopath s) := by
    unfold httpHandlerEmissions
    rw [List.map_map, List.map_map]
    apply List.map_congr_left
    intro na hna
    simp only [Function.comp]
    rw [outPath_server_http _ _ _ (simpleElem_go _ (hsA na hna))]
  have hY : ((typeEmissions gopath s).map fun em => em.outputPath) =
      (s.Types.map fun nt => (["types"], nt.1 ++ ".go")).map (placePath gopath s) := by
    unfold typeEmissions
    rw [List.map_map, List.map_map]
    apply List.map_congr_left
    intro nt hnt
    simp only [Function.comp]
    rw [outPath_types _ _ _ (simpleElem_go _ (hsY nt hnt))]
  have hC : ((connectionEmissions gopath s).map fun em => em.outputPath) =
      [(["connection"], "connection.go"), (["connection"], "connect.go"),
        (["connection"], "cache.go")].map (placePath gopath s) := by
    simp only [connectionEmissions, List.map_cons, List.map_nil]
    rw [outPath_connection _ _ _ (by unfold SimpleElem; decide), outPath_connect_go,
      outPath_cache_go]
  have hM : ((cmdEmissions gopath s).map fun em => em.outputPath) =
      [(["cmd"], "main.go")].map (placePath gopath s) := by
    simp only [cmdEmissions, List.map_cons, List.map_nil]
    rw [outPath_cmd _ _ _ (by unfold SimpleElem; decide)]
  have hS : ((httpServerEmissions gopath s).map fun em => em.outputPath) =
      [(["server", "http"], "server.go")].map (placePath gopath s) := by
    simp only [httpServerEmissions, List.map_cons, List.map_nil]
    rw [outPath_server_http _ _ _ (by unfold SimpleElem; decide)]
  have hB : ((buildSupportEmissions gopath s).map fun em => em.outputPath) =
      [([], "Dockerfile"), ([], "Makefile")].map (placePath gopath s) := by
    simp only [buildSupportEmissions, List.map_cons, List.map_nil]
    rw [outPath_file _ _ _ (by unfold SimpleElem; decide),
      outPath_file _ _ _ (by unfold SimpleElem; decide)]
  unfold pluginEmissions pluginPlaces
  simp only [List.map_append]
  rw [hA, hC, hT, hM, hS, hH, hY, hB]

theorem joinElems_snoc_ne_nil (x : List (List Char)) (f : List Char) (hf : f ≠ []) :
    joinElems (x ++ [f]) ≠ [] := by
  cases x with
  | nil => simpa [joinElems] using hf
  | cons a as =>
    rw [joinElems_append (a :: as) [f] (by simp) (by simp)]
    simp

theorem renderPath_inj (r : Bool) (l1 l2 : List (List Char))
    (h1 : joinElems l1 ≠ []) (h2 : joinElems l2 ≠ [])
    (h : renderPath r l1 = renderPath r l2) : joinElems l1 = joinElems l2 := by
  unfold renderPath at h
  cases r with
  | true =>
    simp only [if_true] at h
    have hd := congrArg String.data h
    simp only [List.cons.injEq, true_and] at hd
    exact hd
  | false =>
    simp only [Bool.false_eq_true, if_false, h1, h2] at h
    exact congrArg String.data h

theorem placePath_inj (gopath : String) (s : PluginSpec) (a b : List String × String)
    (ha : ∀ d ∈ a.1, '/' ∉ d.data) (hfa : SimpleElem a.2.data)
    (hb : ∀ d ∈ b.1, '/' ∉ d.data) (hfb : SimpleElem b.2.data)
    (h : placePath gopath s a = placePath gopath s b) : a = b := by
  have hbase : ∀ e ∈ (baseStack gopath s).reverse, '/' ∉ e := by
    intro e he
    rw [List.mem_reverse] at he
    exact cleanStack_no_slash _ [] _ (by simp) e he
  have hsl : ∀ (p : List String × String), (∀ d ∈ p.1, '/' ∉ d.data) → '/' ∉ p.2.data →
      ∀ e ∈ (baseStack gopath s).reverse ++ (p.1.map String.data ++ [p.2.data]), '/' ∉ e := by
    intro p hp hpf e he
    simp only [List.mem_append, List.mem_map, List.mem_singleton] at he
    rcases he with he | ⟨d, hd, rfl⟩ | rfl
    · exact hbase e he
    · exact hp d hd
    · exact hpf
  have hne : ∀ (p : List String × String), p.2.data ≠ [] →
      joinElems ((baseStack gopath s).reverse ++ (p.1.map String.data ++ [p.2.data])) ≠ [] := by
    intro p hp
    rw [← List.append_assoc]
    exact joinElems_snoc_ne_nil _ _ hp
  unfold placePath at h
  have hj := renderPath_inj _ _ _ (hne a hfa.2.1) (hne b hfb.2.1) h
  have hl := congrArg (splitOnChar '/') hj
  rw [splitOnChar_joinElems _ (by simp) (hsl a ha hfa.1),
    splitOnChar_joinElems _ (by simp) (hsl b hb hfb.1)] at hl
  have hl2 := List.append_cancel_left hl
  obtain ⟨hd, hf⟩ := List.append_inj' hl2 rfl
  have hinj : Function.Injective String.data := fun x y hxy => String.ext hxy
  have h1 : a.1 = b.1 := List.map_injective_iff.mpr hinj hd
  have h2 : a.2 = b.2 := by
    simp only [List.cons.injEq, and_true] at hf
    exact String.ext hf
  exact Prod.ext h1 h2

theorem string_append_right_cancel {a b x : String} (h : a ++ x = b ++ x) : a = b := by
  have := congrArg String.data h
  simp only [String.data_append] at this
  exact String.ext (List.append_cancel_right this)

theorem string_append_left_cancel {a x y : String} (h : a ++ x = a ++ y) : x = y := by
  have := congrArg String.data h
  simp only [String.data_append] at this
  exact String.ext (List.append_cancel_left this)

theorem go_ne_run_go (n : String) : n ++ ".go" ≠ n ++ "_run.go" := fun h =>
  absurd (string_append_left_cancel h) (by decide)

theorem go_eq_run_go {n m : String} (h : n ++ ".go" = m ++ "_run.go") : n = m ++ "_run" := by
  have : m ++ "_run.go" = (m ++ "_run") ++ ".go" := by
    rw [String.append_assoc]
    rfl
  rw [this] at h
  exact string_append_right_cancel h

theorem nodup_flatten_map {α β : Type} (names : List α) (f : α → List β)
    (hn : names.Nodup) (hf : ∀ n ∈ names, (f n).Nodup)
    (hd : ∀ n ∈ names, ∀ m ∈ names, n ≠ m → List.Disjoint (f n) (f m)) :
    ((names.map f).flatten).Nodup := by
  induction names with
  | nil => simp
  | cons a as ih =>
    rw [List.nodup_cons] at hn
    simp only [List.map_cons, List.flatten_cons, List.nodup_append]
    refine ⟨hf a (List.mem_cons_self _ _),
      ih hn.2 (fun n hn1 => hf n (List.mem_cons_of_mem _ hn1))
        (fun n hn1 m hm1 => hd n (List.mem_cons_of_mem _ hn1) m (List.mem_cons_of_mem _ hm1)),
      ?_⟩
    intro x hx hx2
    simp only [List.mem_flatten, List.mem_map] at hx2
    obtain ⟨l, ⟨m, hm, rfl⟩, hxm⟩ := hx2
    have hne : a ≠ m := fun e => hn.1 (e ▸ hm)
    exact hd a (List.mem_cons_self _ _) m (List.mem_cons_of_mem _ hm) hne hx hxm

/-- The skeleton and stub places of the entries of a mapping are distinct when
the names are and none is another one followed by `_run`. -/
theorem pairs_nodup (dir : List String) (names : List String) (hn : names.Nodup)
    (hrun : ∀ n ∈ names, ∀ m ∈ names, m ≠ n ++ "_run") :
    ((names.map fun n => [(dir, n ++ ".go"), (dir, n ++ "_run.go")]).flatten).Nodup := by
  apply nodup_flatten_map names _ hn
  · intro n _
    simp only [List.nodup_cons, List.mem_singleton, Prod.mk.injEq, true_and, List.not_mem_nil,
      not_false_eq_true, List.nodup_nil, and_true]
    exact go_ne_run_go n
  · intro n hn1 m hm1 hne x hx hx2
    simp only [List.mem_cons, List.mem_singleton, List.not_mem_nil, or_false] at hx hx2
    rcases hx with rfl | rfl <;> rcases hx2 with h | h <;>
      simp only [Prod.mk.injEq, true_and] at h
    · exact hne (string_append_right_cancel h)
    · exact hrun m hm1 n hn1 (go_eq_run_go h)
    · exact hrun n hn1 m hm1 (go_eq_run_go h.symm)
    · exact hne (string_append_right_cancel h)

theorem disjoint_of_dirs (l1 l2 : List (List String × String)) (d1 d2 : List String)
    (h1 : ∀ p ∈ l1, p.1 = d1) (h2 : ∀ p ∈ l2, p.1 = d2) (hne : d1 ≠ d2) :
    List.Disjoint l1 l2 := by
  intro p hp1 hp2
  exact hne ((h1 p hp1).symm.trans (h2 p hp2))

theorem pairs_dirs (dir : List String) (names : List String) :
    ∀ p ∈ (names.map fun n => [(dir, n ++ ".go"), (dir, n ++ "_run.go")]).flatten,
      p.1 = dir := by
  intro p hp
  simp only [List.mem_flatten, List.mem_map] at hp
  obtain ⟨l, ⟨n, -, rfl⟩, hpl⟩ := hp
  simp only [List.mem_cons, List.mem_singleton, List.not_mem_nil, or_false] at hpl
  rcases hpl with rfl | rfl <;> rfl

theorem singles_dirs (dir : List String) (names : List String) :
    ∀ p ∈ names.map (fun n => (dir, n ++ ".go")), p.1 = dir := by
  intro p hp
  simp only [List.mem_map] at hp
  obtain ⟨n, -, rfl⟩ := hp
  rfl

theorem singles_nodup (dir : List String) (names : List String) (hn : names.Nodup) :
    (names.map fun n => (dir, n ++ ".go")).Nodup := by
  apply List.Nodup.map _ hn
  intro n m h
  simp only [Prod.mk.injEq, true_and] at h
  exact string_append_right_cancel h

theorem pluginPlaces_eq (s : PluginSpec) :
    pluginPlaces s =
      ((s.Actions.map Prod.fst).map fun n =>
          [(["actions"], n ++ ".go"), (["actions"], n ++ "_run.go")]).flatten ++
        [(["connection"], "connection.go"), (["connection"], "connect.go"),
          (["connection"], "cache.go")] ++
        ((s.Triggers.map Prod.fst).map fun n =>
          [(["triggers"], n ++ ".go"), (["triggers"], n ++ "_run.go")]).flatten ++
        [(["cmd"], "main.go")] ++
        [(["server", "http"], "server.go")] ++
        ((s.Actions.map Prod.fst).map fun n => (["server", "http"], n ++ ".go")) ++
        ((s.Types.map Prod.fst).map fun n => (["types"], n ++ ".go")) ++
        [([], "Dockerfile"), ([], "Makefile")] := by
  simp only [pluginPlaces, List.map_map]
  rfl

theorem pluginPlaces_nodup (s : PluginSpec)
    (hA : (s.Actions.map Prod.fst).Nodup) (hT : (s.Triggers.map Prod.fst).Nodup)
    (hY : (s.Types.map Prod.fst).Nodup)
    (hserver : "server" ∉ s.Actions.map Prod.fst)
    (hrunA : ∀ n ∈ s.Actions.map Prod.fst, n ++ "_run" ∉ s.Actions.map Prod.fst)
    (hrunT : ∀ n ∈ s.Triggers.map Prod.fst, n ++ "_run" ∉ s.Triggers.map Prod.fst) :
    (pluginPlaces s).Nodup := by
  rw [pluginPlaces_eq]
  have nA := pairs_nodup ["actions"] _ hA fun n hn m hm e => hrunA n hn (e ▸ hm)
  have nT := pairs_nodup ["triggers"] _ hT fun n hn m hm e => hrunT n hn (e ▸ hm)
  have nH := singles_nodup ["server", "http"] _ hA
  have nY := singles_nodup ["types"] _ hY
  have dA := pairs_dirs ["actions"] (s.Actions.map Prod.fst)
  have dT := pairs_dirs ["triggers"] (s.Triggers.map Prod.fst)
  have dH := singles_dirs ["server", "http"] (s.Actions.map Prod.fst)
  have dY := singles_dirs ["types"] (s.Types.map Prod.fst)
  have dC : ∀ p ∈ [((["connection"] : List String), "connection.go"),
      (["connection"], "connect.go"), (["connection"], "cache.go")],
      p.1 = ["connection"] := by decide
  have dM : ∀ p ∈ [((["cmd"] : List String), "main.go")], p.1 = ["cmd"] := by decide
  have dS : ∀ p ∈ [((["server", "http"] : List String), "server.go")],
      p.1 = ["server", "http"] := by decide
  have dR : ∀ p ∈ [(([] : List String), "Dockerfile"), ([], "Makefile")], p.1 = [] := by
    decide
  have hSH : List.Disjoint [((["server", "http"] : List String), "server.go")]
      ((s.Actions.map Prod.fst).map fun n => (["server", "http"], n ++ ".go")) := by
    intro p hp1 hp2
    simp only [List.mem_singleton] at hp1
    subst hp1
    obtain ⟨n, hn, he⟩ := List.mem_map.mp hp2
    simp only [Prod.mk.injEq, true_and] at he
    have : n = "server" := string_append_right_cancel he
    exact hserver (this ▸ hn)
  simp only [List.nodup_append, List.disjoint_append_left]
  repeat' apply And.intro
  all_goals
    first
    | exact nA
    | exact nT
    | exact nH
    | exact nY
    | exact hSH
    | decide
    | exact disjoint_of_dirs _ _ _ _ dA dC (by decide)
    | exact disjoint_of_dirs _ _ _ _ dA dT (by decide)
    | exact disjoint_of_dirs _ _ _ _ dA dM (by decide)
    | exact disjoint_of_dirs _ _ _ _ dA dS (by decide)
    | exact disjoint_of_dirs _ _ _ _ dA dH (by decide)
    | exact disjoint_of_dirs _ _ _ _ dA dY (by decide)
    | exact disjoint_of_dirs _ _ _ _ dA dR (by decide)
    | exact disjoint_of_dirs _ _ _ _ dC dT (by decide)
    | exact disjoint_of_dirs _ _ _ _ dC dM (by decide)
    | exact disjoint_of_dirs _ _ _ _ dC dS (by decide)
    | exact disjoint_of_dirs _ _ _ _ dC dH (by decide)
    | exact disjoint_of_dirs _ _ _ _ dC dY (by decide)
    | exact disjoint_of_dirs _ _ _ _ dC dR (by decide)
    | exact disjoint_of_dirs _ _ _ _ dT dM (by decide)
    | exact disjoint_of_dirs _ _ _ _ dT dS (by decide)
    | exact disjoint_of_dirs _ _ _ _ dT dH (by decide)
    | exact disjoint_of_dirs _ _ _ _ dT dY (by decide)
    | exact disjoint_of_dirs _ _ _ _ dT dR (by decide)
    | exact disjoint_of_dirs _ _ _ _ dM dS (by decide)
    | exact disjoint_of_dirs _ _ _ _ dM dH (by decide)
    | exact disjoint_of_dirs _ _ _ _ dM dY (by decide)
    | exact disjoint_of_dirs _ _ _ _ dM dR (by decide)
    | exact disjoint_of_dirs _ _ _ _ dS dY (by decide)
    | exact disjoint_of_dirs _ _ _ _ dS dR (by decide)
    | exact disjoint_of_dirs _ _ _ _ dH dY (by decide)
    | exact disjoint_of_dirs _ _ _ _ dH dR (by decide)
    | exact disjoint_of_dirs _ _ _ _ dY dR (by decide)

theorem pluginPlaces_simple (s : PluginSpec)
    (hsA : ∀ na ∈ s.Actions, '/' ∉ na.1.data) (hsT : ∀ nt ∈ s.Triggers, '/' ∉ nt.1.data)
    (hsY : ∀ nt ∈ s.Types, '/' ∉ nt.1.data) :
    ∀ p ∈ pluginPlaces s, (∀ d ∈ p.1, '/' ∉ d.data) ∧ SimpleElem p.2.data := by
  have hdirs : ∀ (ds : List String) (f : String),
      decide (∀ d ∈ ds, '/' ∉ d.data) = true → ∀ d ∈ (ds, f).1, '/' ∉ d.data :=
    fun ds _ h => (of_decide_eq_true h : ∀ d ∈ ds, '/' ∉ d.data)
  have hfile : ∀ f : String,
      decide ('/' ∉ f.data ∧ f.data ≠ [] ∧ f.data ≠ ['.'] ∧ f.data ≠ ['.', '.']) = true →
        SimpleElem f.data := by
    intro f h
    unfold SimpleElem
    exact of_decide_eq_true h
  intro p hp
  simp only [pluginPlaces, List.mem_append, List.mem_flatten, List.mem_map, List.mem_cons,
    List.mem_singleton, List.not_mem_nil, or_false] at hp
  rcases hp with ((((((⟨l, ⟨na, hna, rfl⟩, h⟩ | h) | ⟨l, ⟨nt, hnt, rfl⟩, h⟩) | h) | h) |
    ⟨na, hna, rfl⟩) | ⟨nt, hnt, rfl⟩) | h
  · simp only [List.mem_cons, List.mem_singleton, List.not_mem_nil, or_false] at h
    rcases h with rfl | rfl
    · exact ⟨hdirs _ _ (by decide), simpleElem_go _ (hsA na hna)⟩
    · exact ⟨hdirs _ _ (by decide), simpleElem_run_go _ (hsA na hna)⟩
  · rcases h with rfl | rfl | rfl <;> exact ⟨hdirs _ _ (by decide), hfile _ (by decide)⟩
  · simp only [List.mem_cons, List.mem_singleton, List.not_mem_nil, or_false] at h
    rcases h with rfl | rfl
    · exact ⟨hdirs _ _ (by decide), simpleElem_go _ (hsT nt hnt)⟩
    · exact ⟨hdirs _ _ (by decide), simpleElem_run_go _ (hsT nt hnt)⟩
  · subst h
    exact ⟨hdirs _ _ (by decide), hfile _ (by decide)⟩
  · subst h
    exact ⟨hdirs _ _ (by decide), hfile _ (by decide)⟩
  · exact ⟨hdirs _ _ (by decide), simpleElem_go _ (hsA na hna)⟩
  · exact ⟨hdirs _ _ (by decide), simpleElem_go _ (hsY nt hnt)⟩
  · rcases h with rfl | rfl <;> exact ⟨hdirs _ _ (by decide), hfile _ (by decide)⟩

/-! ## C11: the output paths of one run -/

/-- C11, as the code has it: for every specification whose action, trigger and
type names are distinct within their mapping and contain no slash, in which no
action is named `server` and no action (trigger) is named as another action
(trigger) followed by `_run`, the output paths of the `runTemplate` calls of
one run of the orchestrator are pairwise distinct. -/
theorem output_paths_distinct (gopath : String) (s : PluginSpec)
    (hA : (s.Actions.map Prod.fst).Nodup) (hT : (s.Triggers.map Prod.fst).Nodup)
    (hY : (s.Types.map Prod.fst).Nodup)
    (hslash : ∀ n ∈ s.Actions.map Prod.fst ++ s.Triggers.map Prod.fst ++ s.Types.map Prod.fst,
      '/' ∉ n.data)
    (hserver : "server" ∉ s.Actions.map Prod.fst)
    (hrunA : ∀ n ∈ s.Actions.map Prod.fst, n ++ "_run" ∉ s.Actions.map Prod.fst)
    (hrunT : ∀ n ∈ s.Triggers.map Prod.fst, n ++ "_run" ∉ s.Triggers.map Prod.fst) :
    ((pluginEmissions gopath s).map fun em => em.outputPath).Nodup := by
  have hsA : ∀ na ∈ s.Actions, '/' ∉ na.1.data := fun na hna =>
    hslash na.1 (List.mem_append_left _ (List.mem_append_left _ (List.mem_map_of_mem _ hna)))
  have hsT : ∀ nt ∈ s.Triggers, '/' ∉ nt.1.data := fun nt hnt =>
    hslash nt.1 (List.mem_append_left _ (List.mem_append_right _ (List.mem_map_of_mem _ hnt)))
  have hsY : ∀ nt ∈ s.Types, '/' ∉ nt.1.data := fun nt hnt =>
    hslash nt.1 (List.mem_append_right _ (List.mem_map_of_mem _ hnt))
  rw [pluginEmissions_paths gopath s hsA hsT hsY]
  refine List.Nodup.map_on ?_ (pluginPlaces_nodup s hA hT hY hserver hrunA hrunT)
  intro a ha b hb hab
  have h1 := pluginPlaces_simple s hsA hsT hsY a ha
  have h2 := pluginPlaces_simple s hsA hsT hsY b hb
  exact placePath_inj gopath s a b h1.1 h1.2 h2.1 h2.2 hab

/-- C11, at a concrete input: the enriched `sampleSpec`, with the actions
`lookup` and `submit`, the trigger `poll` and the type `thing`. -/
theorem output_paths_distinct_witness :
    (postProcessSpec specHelpers sampleSpec).2 = none ∧
      ((postProcessSpec specHelpers sampleSpec).1.Actions.map Prod.fst) = ["lookup", "submit"] ∧
      ((postProcessSpec specHelpers sampleSpec).1.Triggers.map Prod.fst) = ["poll"] ∧
      ((postProcessSpec specHelpers sampleSpec).1.Types.map Prod.fst) = ["thing"] ∧
      ((pluginEmissions "/go" (postProcessSpec specHelpers sampleSpec).1).map
        fun em => em.outputPath).Nodup :=
  ⟨by rfl, by decide, by decide, by decide,
    output_paths_distinct "/go" (postProcessSpec specHelpers sampleSpec).1 (by decide)
      (by decide) (by decide) (by decide) (by decide) (by decide) (by decide)⟩

/-- C11 as stated fails. With the actions `x` and `x_run`, the stub of `x` and
the skeleton of `x_run` are both written to `actions/x_run.go`; an action named
`server` has its handler written to `server/http/server.go`, the file of the
HTTP server bootstrap; and the action `../triggers/x` has its skeleton written
to `triggers/x.go`, the skeleton of the trigger `x`. -/
theorem output_paths_collide :
    ((pluginEmissions "/go" (postProcessSpec specHelpers runNameSpec).1).filter
        (fun em => em.outputPath = "/go/src/p/actions/x_run.go")).map
      (fun em => (em.templatePath, em.skipIfExists)) =
      [("templates/actions/action_x_run.template", true),
        ("templates/actions/action_x.template", false)] ∧
    ¬ ((pluginEmissions "/go" (postProcessSpec specHelpers runNameSpec).1).map
        fun em => em.outputPath).Nodup ∧
    ((pluginEmissions "/go" (postProcessSpec specHelpers serverNameSpec).1).filter
        (fun em => em.outputPath = "/go/src/p/server/http/server.go")).map
      (fun em => em.templatePath) =
      ["templates/server/http/server.template", "templates/server/http/handler_x.template"] ∧
    ((pluginEmissions "/go" (postProcessSpec specHelpers slashNameSpec).1).filter
        (fun em => em.outputPath = "/go/src/p/triggers/x.go")).map
      (fun em => em.templatePath) =
      ["templates/actions/action_x.template", "templates/triggers/trigger_x.template"] := by
  refine ⟨by decide, by decide, by decide, by decide⟩

/-! ## Lemmas on `strings.Replace` over pieces -/

theorem prefix_append_cases (p b y : List Char) (h : p <+: b ++ y) :
    p <+: b ∨ ∃ v, p = b ++ v ∧ v <+: y := by
  induction b generalizing p with
  | nil => exact Or.inr ⟨p, rfl, h⟩
  | cons x xs ih =>
    cases p with
    | nil => exact Or.inl (List.nil_prefix)
    | cons c cs =>
      rw [List.cons_append, List.cons_prefix_cons] at h
      rcases ih cs h.2 with h1 | ⟨v, hv, hvy⟩
      · exact Or.inl (by rw [List.cons_prefix_cons]; exact ⟨h.1, h1⟩)
      · exact Or.inr ⟨v, by rw [h.1, hv]; rfl, hvy⟩

/-- For a pattern whose first character does not come back in it, an occurrence
cannot begin in a text free of the pattern and end in a copy of the pattern put
after it. -/
theorem no_straddle (c : Char) (old seg b x : List Char) (hc : c ∉ old)
    (hfree : ¬ (c :: old) <:+: seg) (hb : b <:+ seg) (hne : b ≠ []) :
    ¬ (c :: old) <+: b ++ ((c :: old) ++ x) := by
  intro hp
  rcases prefix_append_cases _ _ _ hp with h1 | ⟨v, hv, hvy⟩
  · exact hfree (h1.isInfix.trans hb.isInfix)
  · cases v with
    | nil =>
      rw [List.append_nil] at hv
      exact hfree (hv ▸ hb.isInfix)
    | cons v0 vs =>
      rw [List.cons_append, List.cons_prefix_cons] at hvy
      cases b with
      | nil => exact hne rfl
      | cons b0 bs =>
        rw [List.cons_append, List.cons.injEq] at hv
        apply hc
        rw [hv.2, hvy.1]
        simp

theorem replaceGo_before_free (c : Char) (old new seg x : List Char) (hc : c ∉ old)
    (hfree : ¬ (c :: old) <:+: seg) :
    replaceGo (c :: old) new 0 (seg ++ ((c :: old) ++ x)) =
      seg ++ replaceGo (c :: old) new 0 ((c :: old) ++ x) := by
  induction seg with
  | nil => rfl
  | cons y ys ih =>
    have hp : ¬ (c :: old) <+: y :: (ys ++ ((c :: old) ++ x)) :=
      no_straddle c old (y :: ys) (y :: ys) x hc hfree (List.suffix_refl _) (by simp)
    have hys : ¬ (c :: old) <:+: ys := fun h => hfree (List.infix_cons h)
    rw [List.cons_append, replaceGo_cons_neg _ _ _ _ hp, ih hys]
    rfl

/-- `strings.Replace(s, old, new, -1)` on pieces free of `old` joined by `old`
gives the pieces joined by `new`, for an `old` whose first character does not
come back in it. -/
theorem replaceGo_pieces (c : Char) (old new : List Char) (pieces : List (List Char))
    (hc : c ∉ old) (hfree : ∀ x ∈ pieces, ¬ (c :: old) <:+: x) :
    replaceGo (c :: old) new 0 (joinPieces (c :: old) pieces) = joinPieces new pieces := by
  induction pieces with
  | nil => rfl
  | cons x rest ih =>
    cases rest with
    | nil => exact replaceGo_of_free _ _ _ (hfree x (List.mem_cons_self _ _))
    | cons y ys =>
      have h1 := ih fun z hz => hfree z (List.mem_cons_of_mem _ hz)
      simp only [joinPieces] at h1 ⊢
      rw [List.append_assoc, replaceGo_before_free c old new x _ hc
        (hfree x (List.mem_cons_self _ _)), replaceGo_match, h1, List.append_assoc]

theorem joinPieces_nil_sep (pieces : List (List Char)) :
    joinPieces [] pieces = pieces.flatten := by
  induction pieces with
  | nil => rfl
  | cons x rest ih =>
    cases rest with
    | nil => simp [joinPieces]
    | cons y ys =>
      simp only [joinPieces] at ih ⊢
      rw [ih]
      simp

theorem intercalate_go_data (sep acc : String) (l : List String) :
    (String.intercalate.go acc sep l).data =
      acc.data ++ (l.map fun a => sep.data ++ a.data).flatten := by
  induction l generalizing acc with
  | nil => simp [String.intercalate.go]
  | cons a as ih =>
    simp only [String.intercalate.go, ih, String.data_append, List.map_cons, List.flatten_cons,
      List.append_assoc]

theorem joinPieces_cons (sep x : List Char) (rest : List (List Char)) :
    joinPieces sep (x :: rest) = x ++ (rest.map fun a => sep ++ a).flatten := by
  induction rest generalizing x with
  | nil => simp [joinPieces]
  | cons y ys ih =>
    simp only [joinPieces] at ih ⊢
    rw [ih y]
    simp

theorem intercalate_data (sep : String) (l : List String) :
    (sep.intercalate l).data = joinPieces sep.data (l.map String.data) := by
  cases l with
  | nil => rfl
  | cons a as =>
    simp only [String.intercalate, intercalate_go_data, List.map_cons, joinPieces_cons,
      List.map_map]
    rfl

theorem foldl_append_data (l : List String) (acc : String) :
    (l.foldl (fun r s => r ++ s) acc).data = acc.data ++ (l.map String.data).flatten := by
  induction l generalizing acc with
  | nil => simp
  | cons a as ih => simp [ih, List.append_assoc]

theorem join_data (l : List String) : (String.join l).data = (l.map String.data).flatten := by
  unfold String.join
  rw [foldl_append_data]
  rfl

theorem typesInternalType_eq_replace (p : ParamData) :
    p.TypesInternalType = String.mk (replaceGo "types.".data [] 0 p.Type_.data) := by
  unfold ParamData.TypesInternalType
  by_cases hinf : "types.".data <:+: p.Type_.data
  · rw [if_pos (stringsIndex_of_occurs p.Type_ "types." hinf), stringsReplaceAll_types]
  · rw [replaceGo_of_free _ _ _ hinf]
    split
    · rw [stringsReplaceAll_types, replaceGo_of_free _ _ _ hinf]
    · rfl

theorem first_occurrence (pat l : List Char) (hpat : pat ≠ []) (h : pat <:+: l) :
    ∃ a b, l = a ++ (pat ++ b) ∧ ¬ pat <:+: a := by
  induction l with
  | nil => exact absurd (List.eq_nil_of_infix_nil h) hpat
  | cons x xs ih =>
    by_cases hp : pat <+: x :: xs
    · obtain ⟨b, hb⟩ := hp
      exact ⟨[], b, by simp [hb], fun h0 => hpat (List.eq_nil_of_infix_nil h0)⟩
    · rw [List.infix_cons_iff] at h
      rcases h with h | h
      · exact absurd h hp
      · obtain ⟨a, b, hab, hfree⟩ := ih h
        refine ⟨x :: a, b, by rw [hab]; rfl, ?_⟩
        intro hx
        rw [List.infix_cons_iff] at hx
        rcases hx with hx | hx
        · apply hp
          rw [hab]
          exact hx.trans (List.prefix_append (x :: a) (pat ++ b))
        · exact hfree hx

/-- Every text is pieces free of the pattern joined by the pattern. -/
theorem exists_pieces (pat : List Char) (hpat : pat ≠ []) (k : Nat) :
    ∀ l : List Char, l.length ≤ k →
      ∃ pieces, pieces ≠ [] ∧ (∀ x ∈ pieces, ¬ pat <:+: x) ∧ l = joinPieces pat pieces := by
  induction k with
  | zero =>
    intro l hl
    have : l = [] := List.length_eq_zero.mp (Nat.le_zero.mp hl)
    subst this
    exact ⟨[[]], by simp, by
      intro x hx
      simp only [List.mem_singleton] at hx
      subst hx
      exact fun h0 => hpat (List.eq_nil_of_infix_nil h0), rfl⟩
  | succ k ih =>
    intro l hl
    by_cases hinf : pat <:+: l
    · obtain ⟨a, b, hab, hfree⟩ := first_occurrence pat l hpat hinf
      have hlen : b.length ≤ k := by
        have := congrArg List.length hab
        simp only [List.length_append] at this
        have hp : 0 < pat.length := List.length_pos.mpr hpat
        omega
      obtain ⟨pieces, hne, hfr, hb⟩ := ih b hlen
      cases pieces with
      | nil => exact absurd rfl hne
      | cons y ys =>
        refine ⟨a :: y :: ys, by simp, ?_, ?_⟩
        · intro x hx
          rcases List.mem_cons.mp hx with rfl | hx
          · exact hfree
          · exact hfr x hx
        · rw [hab, hb]
          simp [joinPieces]
    · exact ⟨[l], by simp, by
        intro x hx
        simp only [List.mem_singleton] at hx
        exact hx ▸ hinf, rfl⟩

theorem infix_append_cases (pat a b : List Char) (h : pat <:+: a ++ b) :
    pat <:+: a ∨ pat <:+: b ∨
      ∃ u v, u ≠ [] ∧ v ≠ [] ∧ u ++ v = pat ∧ u <:+ a ∧ v <+: b := by
  obtain ⟨x, y, hxy⟩ := h
  rw [List.append_assoc] at hxy
  rcases List.append_eq_append_iff.mp hxy with ⟨a1, ha1, hb1⟩ | ⟨c1, ha2, hb2⟩
  · -- x ++ a1 = a... the pattern begins in b
    rcases List.append_eq_append_iff.mp hb1 with ⟨d, hd1, hd2⟩ | ⟨d, hd1, hd2⟩
    · exact Or.inl ⟨x, d, by rw [ha1, hd1]; simp⟩
    · by_cases hu : a1 = []
      · subst hu
        right; left
        exact ⟨[], y, by simpa using hd2.symm ▸ (by simp [hd1] : _)⟩
      · by_cases hv : d = []
        · subst hv
          left
          exact ⟨x, [], by rw [ha1, hd1]; simp⟩
        · right; right
          exact ⟨a1, d, hu, hv, hd1.symm, ⟨x, ha1.symm⟩, ⟨y, hd2.symm⟩⟩
  · right; left
    exact ⟨c1, y, by rw [hb2]; simp⟩

theorem flatten_occurs_iff (pat : List Char) (hpat : pat ≠ []) (pieces : List String)
    (hfree : ∀ x ∈ pieces, ¬ pat <:+: x.data) :
    pat <:+: (pieces.map String.data).flatten ↔
      ∃ (front : List String) (x : String) (back : List String) (u v : List Char),
        pieces = front ++ x :: back ∧ u ≠ [] ∧ v ≠ [] ∧ u ++ v = pat ∧ u <:+ x.data ∧
          v <+: (back.map String.data).flatten := by
  constructor
  · intro h
    induction pieces with
    | nil => exact absurd (List.eq_nil_of_infix_nil h) hpat
    | cons x rest ih =>
      simp only [List.map_cons, List.flatten_cons] at h
      rcases infix_append_cases pat _ _ h with h1 | h1 | ⟨u, v, hu, hv, huv, hux, hvb⟩
      · exact absurd h1 (hfree x (List.mem_cons_self _ _))
      · obtain ⟨front, y, back, u, v, hp, hu, hv, huv, huy, hvb⟩ :=
          ih (fun z hz => hfree z (List.mem_cons_of_mem _ hz)) h1
        exact ⟨x :: front, y, back, u, v, by rw [hp]; rfl, hu, hv, huv, huy, hvb⟩
      · exact ⟨[], x, rest, u, v, rfl, hu, hv, huv, hux, hvb⟩
  · rintro ⟨front, x, back, u, v, hp, -, -, huv, ⟨w, hw⟩, ⟨z, hz⟩⟩
    refine ⟨(front.map String.data).flatten ++ w, z, ?_⟩
    rw [hp, ← huv]
    simp only [List.map_append, List.map_cons, List.flatten_append, List.flatten_cons,
      ← hw, ← hz, List.append_assoc]

theorem proper_beginnings (u v : String) (hu : u ≠ "") (hv : v ≠ "")
    (huv : u ++ v = "types.") : u ∈ ["t", "ty", "typ", "type", "types"] := by
  have hd : u.data ++ v.data = "types.".data := by
    rw [← String.data_append, huv]
  have hmem : u.data ∈ ("types.".data).inits := (List.mem_inits _ _).mpr ⟨v.data, hd⟩
  have hin : ("types.".data).inits =
      ["".data, "t".data, "ty".data, "typ".data, "type".data, "types".data,
        "types.".data] := by decide
  rw [hin] at hmem
  simp only [List.mem_cons, List.mem_singleton, List.not_mem_nil, or_false] at hmem
  rcases hmem with h | h | h | h | h | h | h
  · exact absurd (String.ext h) hu
  · rw [String.ext h]; decide
  · rw [String.ext h]; decide
  · rw [String.ext h]; decide
  · rw [String.ext h]; decide
  · rw [String.ext h]; decide
  · rw [h] at hd
    have hvn : v.data = [] := by
      have := congrArg List.length hd
      simp only [List.length_append] at this
      exact List.length_eq_zero.mp (by omega)
    exact absurd (String.ext hvn) hv

/-! ## C10: `TypesInternalType` -/

/-- C10, as the code has it: `TypesInternalType` deletes every occurrence of
`types.` in one left-to-right pass. For every `ParamData`: its `Type` is pieces
free of `types.` joined by `types.`; for every such way of writing it the result
is the pieces put together, and it contains an occurrence of `types.` exactly
when the deletion brings one together (a piece ends with a non-empty beginning
of `types.` and the pieces after it, put together, begin with the rest), so it
contains none when no piece but the last ends in `t`, `ty`, `typ`, `type` or
`types`; the result is the `Type` itself when that contains no occurrence; the
resolved type `[]types.Thing` of the field `things_n_such` gives `[]Thing`,
`map[string]types.Val` gives `map[string]Val` and `map[types.Key]types.Val`
gives `map[Key]Val`. -/
theorem typesInternalType_deletes (p : ParamData) :
    (∃ pieces : List String, (∀ x ∈ pieces, ¬ "types.".data <:+: x.data) ∧
      p.Type_ = "types.".intercalate pieces) ∧
    (∀ pieces : List String, (∀ x ∈ pieces, ¬ "types.".data <:+: x.data) →
      p.Type_ = "types.".intercalate pieces →
        p.TypesInternalType = String.join pieces ∧
        ("types.".data <:+: p.TypesInternalType.data ↔
          ∃ (front : List String) (x : String) (back : List String) (u v : String),
            pieces = front ++ x :: back ∧ u ≠ "" ∧ v ≠ "" ∧ u ++ v = "types." ∧
              u.data <:+ x.data ∧ v.data <+: (String.join back).data) ∧
        ((∀ x ∈ pieces.dropLast, ∀ u ∈ ["t", "ty", "typ", "type", "types"],
            ¬ u.data <:+ x.data) →
          ¬ "types.".data <:+: p.TypesInternalType.data)) ∧
    (¬ "types.".data <:+: p.Type_.data → p.TypesInternalType = p.Type_) ∧
    (rawParam "[]types.Thing" []).TypesInternalType = "[]Thing" ∧
    (rawParam "map[string]types.Val" []).TypesInternalType = "map[string]Val" ∧
    (rawParam "map[types.Key]types.Val" []).TypesInternalType = "map[Key]Val" := by
  have hold : "types.".data = 't' :: "ypes.".data := by rfl
  have hc : 't' ∉ "ypes.".data := by decide
  have hpat : ("types." : String).data ≠ [] := by decide
  have hmain : ∀ pieces : List String, (∀ x ∈ pieces, ¬ "types.".data <:+: x.data) →
      p.Type_ = "types.".intercalate pieces → p.TypesInternalType = String.join pieces := by
    intro pieces hfree hty
    rw [typesInternalType_eq_replace, hty, intercalate_data, hold,
      replaceGo_pieces 't' "ypes.".data [] _ hc (by
        intro x hx
        obtain ⟨y, hy, rfl⟩ := List.mem_map.mp hx
        exact hold ▸ hfree y hy),
      joinPieces_nil_sep]
    apply String.ext
    rw [join_data]
  have hiff : ∀ pieces : List String, (∀ x ∈ pieces, ¬ "types.".data <:+: x.data) →
      ("types.".data <:+: (String.join pieces).data ↔
        ∃ (front : List String) (x : String) (back : List String) (u v : String),
          pieces = front ++ x :: back ∧ u ≠ "" ∧ v ≠ "" ∧ u ++ v = "types." ∧
            u.data <:+ x.data ∧ v.data <+: (String.join back).data) := by
    intro pieces hfree
    rw [join_data, flatten_occurs_iff _ hpat pieces hfree]
    constructor
    · rintro ⟨front, x, back, u, v, hp, hu, hv, huv, hux, hvb⟩
      refine ⟨front, x, back, String.mk u, String.mk v, hp, ?_, ?_, ?_, hux, ?_⟩
      · exact fun h => hu (congrArg String.data h)
      · exact fun h => hv (congrArg String.data h)
      · exact String.ext (by rw [String.data_append]; exact huv)
      · rw [join_data]
        exact hvb
    · rintro ⟨front, x, back, u, v, hp, hu, hv, huv, hux, hvb⟩
      refine ⟨front, x, back, u.data, v.data, hp, ?_, ?_, ?_, hux, ?_⟩
      · exact fun h => hu (String.ext h)
      · exact fun h => hv (String.ext h)
      · rw [← String.data_append, huv]
      · rw [← join_data]
        exact hvb
  refine ⟨?_, ?_, ?_, by decide, by decide, by decide⟩
  · obtain ⟨pieces, -, hfree, hj⟩ :=
      exists_pieces "types.".data hpat p.Type_.data.length p.Type_.data (Nat.le_refl _)
    refine ⟨pieces.map String.mk, ?_, ?_⟩
    · intro x hx
      obtain ⟨y, hy, rfl⟩ := List.mem_map.mp hx
      exact hfree y hy
    · apply String.ext
      rw [intercalate_data, List.map_map]
      have : (String.data ∘ String.mk) = id := rfl
      rw [this, List.map_id]
      exact hj
  · intro pieces hfree hty
    have hres := hmain pieces hfree hty
    refine ⟨hres, ?_, ?_⟩
    · rw [hres]
      exact hiff pieces hfree
    · intro hends hocc
      rw [hres] at hocc
      obtain ⟨front, x, back, u, v, hp, hu, hv, huv, hux, hvb⟩ := (hiff pieces hfree).mp hocc
      have hback : back ≠ [] := by
        intro hb
        subst hb
        have : v.data = [] := List.prefix_nil.mp (by simpa [String.join] using hvb)
        exact hv (String.ext this)
      have hx : x ∈ pieces.dropLast := by
        rw [hp]
        have : front ++ x :: back = (front ++ [x]) ++ back := by simp
        rw [this, List.dropLast_append_of_ne_nil _ hback]
        simp
      exact hends x hx u (proper_beginnings u v hu hv huv) hux
  · intro hfree
    have h1 := hmain [p.Type_] (by
      intro x hx
      simp only [List.mem_singleton] at hx
      exact hx ▸ hfree) (by rfl)
    rw [h1]
    simp [String.join]

/-- C10 as stated fails: the result can contain `types.`. For the type
`ttypes.ypes.Thing` the pass deletes the one occurrence it finds, at index 1,
and what is left is `types.Thing`. -/
theorem typesInternalType_can_leave_types :
    (rawParam "ttypes.ypes.Thing" []).TypesInternalType = "types.Thing" ∧
      "types.".data <:+: (rawParam "ttypes.ypes.Thing" []).TypesInternalType.data ∧
      stringsIndex (rawParam "ttypes.ypes.Thing" []).TypesInternalType "types." = 0 := by
  decide

/-! ## Lemmas: what a run leaves alone -/

theorem find_filter_ne (l : List (String × Node)) (p q : String) (h : q ≠ p) :
    (l.filter fun e => decide (e.1 ≠ p)).find? (fun e => decide (e.1 = q)) =
      l.find? (fun e => decide (e.1 = q)) := by
  induction l with
  | nil => rfl
  | cons e es ih =>
    by_cases hp : e.1 = p
    · have hq : ¬ e.1 = q := fun hq => h (hq.symm.trans hp)
      rw [List.filter_cons_of_neg (by simpa using hp),
        List.find?_cons_of_neg _ (by simpa using hq), ih]
    · rw [List.filter_cons_of_pos (by simpa using hp)]
      by_cases hq : e.1 = q
      · rw [List.find?_cons_of_pos _ (by simpa using hq),
          List.find?_cons_of_pos _ (by simpa using hq)]
      · rw [List.find?_cons_of_neg _ (by simpa using hq),
          List.find?_cons_of_neg _ (by simpa using hq), ih]

theorem FS.lookup_set_other (fs : FS) (p q : String) (n : Node) (h : q ≠ p) :
    (fs.set p n).lookup q = fs.lookup q := by
  have hpq : ¬ p = q := fun e => h e.symm
  unfold FS.set FS.lookup
  simp only
  rw [List.find?_cons_of_neg _ (by simpa using hpq), find_filter_ne _ _ _ h]

theorem mkdirChain_frame (q : String) (n : Node) (ps : List String) (fs fs1 : FS)
    (hq : fs.lookup q = some n) (hm : mkdirChain fs ps = .ok fs1) :
    fs1.lookup q = some n := by
  induction ps generalizing fs with
  | nil =>
    simp only [mkdirChain, Except.ok.injEq] at hm
    exact hm ▸ hq
  | cons p rest ih =>
    unfold mkdirChain at hm
    split at hm
    · cases hm
    · exact ih fs hq hm
    · rename_i hnone
      have hne : q ≠ p := fun e => by rw [e, hnone] at hq; cases hq
      exact ih _ ((FS.lookup_set_other fs p q .dir hne).trans hq) hm

theorem osMkdirAll_frame (q : String) (n : Node) (p : String) (fs fs1 : FS)
    (hq : fs.lookup q = some n) (hm : osMkdirAll fs p = .ok fs1) :
    fs1.lookup q = some n := by
  unfold osMkdirAll at hm
  split at hm
  · rename_i fs2 hc
    cases hm
    exact mkdirChain_frame q n _ fs _ hq hc
  · cases hm

theorem osCreate_frame (q p : String) (fs fs1 : FS) (hne : q ≠ p)
    (hc : osCreate fs p = .ok fs1) : fs1.lookup q = fs.lookup q := by
  unfold osCreate at hc
  split at hc
  · cases hc
  · split at hc
    · cases hc
    · cases hc
      exact FS.lookup_set_other fs p q _ hne

theorem fileWrite_frame (q p out : String) (fs : FS) (hne : q ≠ p) :
    (fileWrite fs p out).lookup q = fs.lookup q := by
  unfold fileWrite
  split
  · exact FS.lookup_set_other fs p q _ hne
  · rfl

theorem ioutilWriteFile_frame (q p data : String) (fs fs1 : FS) (hne : q ≠ p)
    (hw : ioutilWriteFile fs p data = .ok fs1) : fs1.lookup q = fs.lookup q := by
  unfold ioutilWriteFile at hw
  split at hw
  · cases hw
  · rename_i fs2 hc
    cases hw
    rw [fileWrite_frame q p data fs2 hne, osCreate_frame q p fs fs2 hne hc]

theorem doesFileExist_of_lookup (fs : FS) (p : String) (n : Node)
    (h : fs.lookup p = some n) : doesFileExist fs p = true := by
  unfold doesFileExist osStat
  rw [h]
  simp [osIsNotExist]

/-- A call of `runTemplate` changes no node other than the output and the
directories it makes: a node that exists elsewhere stays. -/
theorem runTemplate_other (e : Engine) (tp op : String) (data : Data) (skip : Bool)
    (fs : FS) (q : String) (n : Node) (hq : fs.lookup q = some n) (hne : q ≠ op) :
    (runTemplate e tp op data skip fs).2.lookup q = some n := by
  unfold runTemplate
  split
  · exact hq
  · split
    · exact hq
    · rename_i fs1 hm
      have h1 := osMkdirAll_frame q n _ fs fs1 hq hm
      split
      · exact h1
      · split
        · exact h1
        · split
          · exact h1
          · rename_i fs2 hc
            simp only
            rw [fileWrite_frame q op _ fs2 hne, osCreate_frame q op fs1 fs2 hne hc]
            exact h1

/-- A call of `runTemplate` leaves a node that exists as it is, unless it is
the output of the call and the call is made with `skipIfExists = false`. -/
theorem runTemplate_frame (e : Engine) (tp op : String) (data : Data) (skip : Bool)
    (fs : FS) (q : String) (n : Node) (hq : fs.lookup q = some n)
    (hne : skip = false → op ≠ q) :
    (runTemplate e tp op data skip fs).2.lookup q = some n := by
  by_cases hop : op = q
  · subst hop
    cases skip with
    | false => exact absurd rfl (hne rfl)
    | true =>
      unfold runTemplate
      rw [doesFileExist_of_lookup fs op n hq]
      exact hq
  · exact runTemplate_other e tp op data skip fs q n hq fun h => hop h.symm

theorem runEmissions_frame (e : Engine) (ems : List Emission) (fs : FS) (q : String)
    (n : Node) (hq : fs.lookup q = some n)
    (hne : ∀ em ∈ ems, em.skipIfExists = false → em.outputPath ≠ q) :
    (runEmissions e ems fs).2.lookup q = some n := by
  induction ems generalizing fs with
  | nil => exact hq
  | cons em rest ih =>
    have h1 := runTemplate_frame e em.templatePath em.outputPath em.data em.skipIfExists fs q n
      hq (hne em (List.mem_cons_self _ _))
    unfold runEmissions
    split
    · rename_i err fs1 heq
      rw [heq] at h1
      exact h1
    · rename_i fs1 heq
      rw [heq] at h1
      exact ih fs1 h1 fun em1 hem1 => hne em1 (List.mem_cons_of_mem _ hem1)

theorem runSteps_frame (steps : List (FS → Option Error × FS)) (fs : FS) (q : String)
    (n : Node) (hq : fs.lookup q = some n)
    (hs : ∀ step ∈ steps, ∀ fs1 : FS, fs1.lookup q = some n →
      (step fs1).2.lookup q = some n) :
    (runSteps steps fs).2.lookup q = some n := by
  induction steps generalizing fs with
  | nil => exact hq
  | cons step rest ih =>
    have h1 := hs step (List.mem_cons_self _ _) fs hq
    unfold runSteps
    split
    · rename_i err fs1 heq
      rw [heq] at h1
      exact h1
    · rename_i fs1 heq
      rw [heq] at h1
      exact ih fs1 h1 fun st hst => hs st (List.mem_cons_of_mem _ hst)

theorem generateBuildSupport_frame (env : Env) (s : PluginSpec) (fs : FS) (q : String)
    (n : Node) (hq : fs.lookup q = some n)
    (hne : ∀ em ∈ buildSupportEmissions env.GOPATH s,
      em.skipIfExists = false → em.outputPath ≠ q)
    (hkeep : q ≠ outPath env.GOPATH s ["/vendor/.gitkeep"]) :
    (generateBuildSupport env s fs).2.lookup q = some n := by
  have h1 := runEmissions_frame env.engine (buildSupportEmissions env.GOPATH s) fs q n hq hne
  unfold generateBuildSupport
  split
  · rename_i err fs1 heq
    rw [heq] at h1
    exact h1
  · rename_i fs1 heq
    rw [heq] at h1
    split
    · exact h1
    · rename_i fs2 hm
      have h2 := osMkdirAll_frame q n _ fs1 fs2 h1 hm
      split
      · exact h2
      · rename_i fs3 hw
        simp only
        rw [ioutilWriteFile_frame q _ _ fs2 fs3 hkeep hw]
        exact h2

theorem copySpec_frame (env : Env) (s : PluginSpec) (fs : FS) (q : String) (n : Node)
    (hq : fs.lookup q = some n) (hspec : q ≠ outPath env.GOPATH s ["plugin.spec.yaml"]) :
    (copySpec env s fs).2.lookup q = some n := by
  unfold copySpec
  split
  · exact hq
  · split
    · exact hq
    · rename_i fs1 hw
      simp only
      rw [ioutilWriteFile_frame q _ _ fs fs1 hspec hw]
      exact hq

/-- A run of `generatePlugin` leaves a node that exists as it is, when no call
of `runTemplate` with `skipIfExists = false` has it as output, it is neither
`vendor/.gitkeep` nor the copy of the specification, and the toolchain steps
leave it as it is. -/
theorem generatePlugin_frame (env : Env) (s : PluginSpec) (fs : FS) (q : String) (n : Node)
    (hq : fs.lookup q = some n)
    (hne : ∀ em ∈ pluginEmissions env.GOPATH s, em.skipIfExists = false → em.outputPath ≠ q)
    (hkeep : q ≠ outPath env.GOPATH s ["/vendor/.gitkeep"])
    (hspec : q ≠ outPath env.GOPATH s ["plugin.spec.yaml"])
    (himports : ∀ fs1 : FS, fs1.lookup q = some n →
      (env.runGoImports s fs1).2.lookup q = some n)
    (hvendor : ∀ fs1 : FS, fs1.lookup q = some n →
      (env.vendorPluginDeps s fs1).2.lookup q = some n) :
    (generatePlugin env s fs).2.lookup q = some n := by
  have hsub : ∀ ems : List Emission, (∀ em ∈ ems, em ∈ pluginEmissions env.GOPATH s) →
      ∀ fs1 : FS, fs1.lookup q = some n →
        (runEmissions env.engine ems fs1).2.lookup q = some n := by
    intro ems hems fs1 h1
    exact runEmissions_frame env.engine ems fs1 q n h1 fun em hem => hne em (hems em hem)
  unfold generatePlugin
  simp only
  split
  · exact hq
  · rename_i fs0 hmk
    have h0 : fs0.lookup q = some n := by
      split at hmk
      · exact osMkdirAll_frame q n _ fs fs0 hq hmk
      · cases hmk
        exact hq
    apply runSteps_frame _ fs0 q n h0
    intro step hstep fs1 h1
    simp only [List.mem_cons, List.mem_singleton, List.not_mem_nil, or_false] at hstep
    rcases hstep with rfl | rfl | rfl | rfl | rfl | rfl | rfl | rfl | rfl | rfl | rfl | rfl
    · exact hsub _ (fun em hem => by
        unfold pluginEmissions
        iterate 7 apply List.mem_append_left
        exact hem) fs1 h1
    · exact hsub _ (fun em hem => by
        unfold pluginEmissions
        iterate 6 apply List.mem_append_left
        exact List.mem_append_right _ hem) fs1 h1
    · exact hsub _ (fun em hem => by
        unfold pluginEmissions
        iterate 5 apply List.mem_append_left
        exact List.mem_append_right _ hem) fs1 h1
    · exact hsub _ (fun em hem => by
        unfold pluginEmissions
        iterate 4 apply List.mem_append_left
        exact List.mem_append_right _ hem) fs1 h1
    · exact hsub _ (fun em hem => by
        unfold pluginEmissions
        iterate 3 apply List.mem_append_left
        exact List.mem_append_right _ hem) fs1 h1
    · exact hsub _ (fun em hem => by
        unfold pluginEmissions
        iterate 2 apply List.mem_append_left
        exact List.mem_append_right _ hem) fs1 h1
    · exact h1
    · exact hsub _ (fun em hem => by
        unfold pluginEmissions
        apply List.mem_append_left
        exact List.mem_append_right _ hem) fs1 h1
    · exact generateBuildSupport_frame env s fs1 q n h1
        (fun em hem => hne em (by
          unfold pluginEmissions
          exact List.mem_append_right _ hem)) hkeep
    · exact copySpec_frame env s fs1 q n h1 hspec
    · exact himports fs1 h1
    · exact hvendor fs1 h1

/-! ## C1: a generate-once file that exists is left alone -/

/-- C1, as the code has it: for every template path, data object and
file-system state in which the output path already exists, `runTemplate` called
with `skipIfExists = true` returns `nil` and leaves the file system as it was;
and a run of `generatePlugin` leaves every node that exists as it is (so a
generate-once file keeps its content) provided that no call of `runTemplate`
with `skipIfExists = false` targets its path, that it is neither
`vendor/.gitkeep` nor the copy of the specification, and that the toolchain
steps run after emission leave it as it is. -/
theorem generate_once_preserved (env : Env) (s : PluginSpec) :
    (∀ (e : Engine) (templatePath outputPath : String) (data : Data) (fs : FS) (n : Node),
      fs.lookup outputPath = some n →
        runTemplate e templatePath outputPath data true fs = (none, fs)) ∧
    (∀ (fs : FS) (q : String) (n : Node), fs.lookup q = some n →
      (∀ em ∈ pluginEmissions env.GOPATH s, em.skipIfExists = false → em.outputPath ≠ q) →
      q ≠ outPath env.GOPATH s ["/vendor/.gitkeep"] →
      q ≠ outPath env.GOPATH s ["plugin.spec.yaml"] →
      (∀ fs1 : FS, fs1.lookup q = some n → (env.runGoImports s fs1).2.lookup q = some n) →
      (∀ fs1 : FS, fs1.lookup q = some n →
        (env.vendorPluginDeps s fs1).2.lookup q = some n) →
      (generatePlugin env s fs).2.lookup q = some n) :=
  ⟨fun e tp op data fs n h => runTemplate_skip_existing e tp op data fs n h,
    fun fs q n hq hne hkeep hspec himports hvendor =>
      generatePlugin_frame env s fs q n hq hne hkeep hspec himports hvendor⟩

/-- C1, at a concrete input: the hand-written stub of `sampleFS` survives the
call that would render `action_x_run.template` over it, and the hand-written
stub of the action `lookup` survives a second run of `generatePlugin` on the
enriched `sampleSpec`. -/
theorem generate_once_preserved_witness :
    sampleFS.lookup "/go/src/p/actions/a_run.go" = some (.file "hand-written") ∧
      runTemplate sampleEngine "templates/actions/action_x_run.template"
        "/go/src/p/actions/a_run.go" (.spec (newPluginSpec "p" "plugin.spec.yaml")) true
        sampleFS = (none, sampleFS) ∧
      sampleEditedFS.lookup "/go/src/p/actions/lookup_run.go" = some (.file "hand-written") ∧
      (generatePlugin sampleEnv (postProcessSpec specHelpers sampleSpec).1 sampleEditedFS).1 =
        .returned none ∧
      (generatePlugin sampleEnv (postProcessSpec specHelpers sampleSpec).1
          sampleEditedFS).2.lookup "/go/src/p/actions/lookup_run.go" =
        some (.file "hand-written") :=
  ⟨by decide,
    (generate_once_preserved sampleEnv (postProcessSpec specHelpers sampleSpec).1).1
      _ _ _ _ _ (.file "hand-written") (by decide),
    by decide, by decide,
    (generate_once_preserved sampleEnv (postProcessSpec specHelpers sampleSpec).1).2
      sampleEditedFS "/go/src/p/actions/lookup_run.go" (.file "hand-written") (by decide)
      (by decide) (by decide) (by decide) (fun _ h => h) (fun _ h => h)⟩

/-- C1 as stated fails: a second run can change a generate-once file. With the
actions `x` and `x_run`, the stub of `x` and the skeleton of `x_run` are both
`actions/x_run.go`; after a first run and the developer's edit of that stub, the
second run of `main` ends normally and the file holds the rendering of
`action_x.template`. -/
theorem second_run_overwrites_stub :
    ((pluginEmissions "/go" (postProcessSpec specHelpers runNameSpec).1).filter
        (fun em => em.outputPath = "/go/src/p/actions/x_run.go")).map
      (fun em => (em.templatePath, em.skipIfExists)) =
      [("templates/actions/action_x_run.template", true),
        ("templates/actions/action_x.template", false)] ∧
    editedFS.lookup "/go/src/p/actions/x_run.go" = some (.file "hand-written") ∧
    (main runNameEnv specHelpers "plugin.spec.yaml" "p" editedFS).1 = none ∧
    (main runNameEnv specHelpers "plugin.spec.yaml" "p" editedFS).2.lookup
        "/go/src/p/actions/x_run.go" =
      some (.file "T:templates/actions/action_x.template!") := by
  refine ⟨by decide, by decide, by decide, by decide⟩

end Komand
